import Mathlib

/-!
Shallow embedding of the scanning engine of `PortScanner.py` (function
`scan_ips`, lines 81-151) and of its Spanish-localized copy
(`src/unnamed/part_000`, function `scan_ips`, lines 79-149).

Modelling choices, in one-to-one correspondence with the source:

* `start_ip` / `end_ip` are the results of `ipaddress.ip_address(...)`:
  an `Except String Nat` — `.ok n` is the parsed 32-bit integer value,
  `.error m` is the exception (caught by the function's outer handler).
* The probe `sock.connect_ex((ip, port))` is an oracle
  `probe : String → Nat → ProbeRes`: `.ret c` is a returned error code
  (`0` = connection succeeded), `.exn m` is a raised exception, which in
  the source propagates to the outer `except` handler (note: the source
  has no per-probe handler and no `finally`, so `sock.close()` is skipped
  on `.exn`).
* `stop_event.is_set()` calls are an oracle `stop : Nat → Bool` indexed by
  the number of `is_set` calls made so far (`nChecks`), so the flag may be
  set at any point between two checks, as in the threaded source.
* `log_callback` / `result_callback` are modelled by a presence boolean
  (Python tests their truthiness: `if log_callback:`) plus instrumented
  lists `logs` / `resultCalls` recording every invocation in order.
* Counters `nChecks`, `nProbes`, `nSockOpened`, `nSockClosed`,
  `nClosedProbes` instrument, respectively: `is_set()` calls,
  `connect_ex` calls, `socket.socket(...)` constructions, `sock.close()`
  calls, and probes whose classification is Closed (`result != 0`).
* The Python `while current_ip_int <= int(end)` loop (which increments
  `current_ip_int` by one each iteration) is iterated over the explicit
  address list `List.range' start (end + 1 - start)`; the inner
  `for port in range(start_port, end_port + 1)` over
  `List.range' start_port (end_port + 1 - start_port)` (empty when
  `start_port > end_port`, exactly as Python's `range`).
* The loop bodies are factored into named step functions (`checkSt`,
  `cancelExit`, `raiseSt`, `probeSt`), each the literal sequence of
  statements of the corresponding block of the source.
-/

namespace PortScanner

/-- Outcome of one `connect_ex` call on one `(address, port)` pair:
either a returned error code, or a raised exception. -/
inductive ProbeRes where
  | ret (code : Nat)
  | exn (msg : String)
deriving DecidableEq

/-- Which `return` path of `scan_ips` terminated the run. -/
inductive ExitKind where
  | usageError
  | completed
  | stopped
  | fault (msg : String)
deriving DecidableEq

/-- Control flow signal of the two nested loops: fell through normally,
returned from inside (cancellation), or an exception is propagating. -/
inductive Flow where
  | normal
  | stopped
  | raised (msg : String)
deriving DecidableEq

/-- Instrumented state of one run of `scan_ips`. `open_ports` is the
accumulator of the same name in the source; `logs` records every string
passed to `log_callback`; `resultCalls` records every list passed to
`result_callback`; the counters are described in the module docstring. -/
structure ScanSt where
  nChecks : Nat
  nProbes : Nat
  nSockOpened : Nat
  nSockClosed : Nat
  nClosedProbes : Nat
  logs : List String
  resultCalls : List (List (String × Nat))
  open_ports : List (String × Nat)
deriving DecidableEq

/-- The initial state of a run. -/
def st0 : ScanSt := ⟨0, 0, 0, 0, 0, [], [], []⟩

/-- The state together with which terminal path the run took. -/
structure ScanRun extends ScanSt where
  exit : ExitKind
deriving DecidableEq

/-- `str(ipaddress.ip_address(n))`: dotted-decimal rendering of a 32-bit
address value. -/
def ipStr (n : Nat) : String :=
  toString (n / 16777216 % 256) ++ "." ++ toString (n / 65536 % 256) ++ "." ++
    toString (n / 256 % 256) ++ "." ++ toString (n % 256)

/-- `"⏹️ Scan stopped by user."` -/
def stopMsg : String := "⏹️ Scan stopped by user."

/-- `"Error: Start IP cannot be greater than end IP."` -/
def usageMsg : String := "Error: Start IP cannot be greater than end IP."

/-- `f"✓ OPEN port → IP: {ip_address}, Port: {port}"` -/
def openMsg (ip : String) (port : Nat) : String :=
  "✓ OPEN port → IP: " ++ ip ++ ", Port: " ++ toString port

/-- `f"  CLOSED port → IP: {ip_address}, Port: {port}"` -/
def closedMsg (ip : String) (port : Nat) : String :=
  "  CLOSED port → IP: " ++ ip ++ ", Port: " ++ toString port

/-- `f"❌ Error during scan: {e}"` -/
def errMsg (e : String) : String := "❌ Error during scan: " ++ e

/-- `log_callback(m)` guarded by `if log_callback:`. -/
def pushLog (log_callback : Bool) (m : String) (st : ScanSt) : ScanSt :=
  if log_callback then {st with logs := st.logs ++ [m]} else st

/-- `result_callback(r)` guarded by `if result_callback:`. -/
def pushResult (result_callback : Bool) (r : List (String × Nat)) (st : ScanSt) : ScanSt :=
  if result_callback then {st with resultCalls := st.resultCalls ++ [r]} else st

/-- One `stop_event.is_set()` call: the check counter advances. -/
def checkSt (st : ScanSt) : ScanSt := {st with nChecks := st.nChecks + 1}

/-- The cancellation block (it appears verbatim at both granularities of
the source): `is_set()` returned true, so log the stop line and call
`result_callback(open_ports)`. -/
def cancelExit (log_callback result_callback : Bool) (st : ScanSt) : ScanSt :=
  let st1 := checkSt st
  let st2 := pushLog log_callback stopMsg st1
  pushResult result_callback st2.open_ports st2

/-- A probe whose `connect_ex` raised: `socket.socket(...)` ran and
`connect_ex` was entered, but the exception skips both the classification
and `sock.close()` (the source has no `finally`). Takes the state after
the port-level `is_set()` check. -/
def raiseSt (st : ScanSt) : ScanSt :=
  {st with nSockOpened := st.nSockOpened + 1, nProbes := st.nProbes + 1}

/-- A probe whose `connect_ex` returned `code`: open the socket, probe,
classify (`0` → Open: append to `open_ports` and log; else → Closed: log
only when `verbose and log_callback`), then `sock.close()`. Takes the
state after the port-level `is_set()` check. -/
def probeSt (verbose log_callback : Bool) (ip : String) (p : Nat) (code : Nat)
    (st : ScanSt) : ScanSt :=
  let st2 : ScanSt := {st with nSockOpened := st.nSockOpened + 1}
  let st3 : ScanSt := {st2 with nProbes := st2.nProbes + 1}
  let st4 :=
    if code = 0 then
      pushLog log_callback (openMsg ip p)
        {st3 with open_ports := st3.open_ports ++ [(ip, p)]}
    else
      pushLog (verbose && log_callback) (closedMsg ip p)
        {st3 with nClosedProbes := st3.nClosedProbes + 1}
  {st4 with nSockClosed := st4.nSockClosed + 1}

/-- Python's `range(start_port, end_port + 1)` as a list. -/
def portList (start_port end_port : Nat) : List Nat :=
  List.range' start_port (end_port + 1 - start_port)

/-- The inner `for port in range(start_port, end_port + 1)` loop of
`scan_ips`, for one address `ip`, over the remaining ports `ps`. -/
def portLoop (verbose log_callback result_callback : Bool) (stop : Nat → Bool)
    (probe : String → Nat → ProbeRes) (ip : String) :
    List Nat → ScanSt → ScanSt × Flow
  | [], st => (st, Flow.normal)
  | p :: ps, st =>
    if stop st.nChecks then
      (cancelExit log_callback result_callback st, Flow.stopped)
    else
      match probe ip p with
      | ProbeRes.exn m => (raiseSt (checkSt st), Flow.raised m)
      | ProbeRes.ret code =>
        portLoop verbose log_callback result_callback stop probe ip ps
          (probeSt verbose log_callback ip p code (checkSt st))

/-- The outer `while current_ip_int <= int(end)` loop of `scan_ips`,
iterated over the explicit list of remaining addresses `as`. -/
def ipLoop (verbose log_callback result_callback : Bool) (stop : Nat → Bool)
    (probe : String → Nat → ProbeRes) (ports : List Nat) :
    List Nat → ScanSt → ScanSt × Flow
  | [], st => (st, Flow.normal)
  | a :: as, st =>
    if stop st.nChecks then
      (cancelExit log_callback result_callback st, Flow.stopped)
    else
      match portLoop verbose log_callback result_callback stop probe (ipStr a)
          ports (checkSt st) with
      | (st2, Flow.normal) =>
        ipLoop verbose log_callback result_callback stop probe ports as st2
      | (st2, f) => (st2, f)

/-- `scan_ips` of `PortScanner.py` (lines 81-151). The whole body runs
under `try: ... except Exception as e:`; both parse failures of the two
addresses and probe exceptions reach that handler, which logs
`errMsg` and calls `result_callback([])`. -/
def scan_ips (start_ip end_ip : Except String Nat) (start_port end_port : Nat)
    (verbose : Bool) (stop : Nat → Bool) (probe : String → Nat → ProbeRes)
    (log_callback result_callback : Bool) : ScanRun :=
  match start_ip with
  | Except.error m =>
    ⟨pushResult result_callback [] (pushLog log_callback (errMsg m) st0), ExitKind.fault m⟩
  | Except.ok s =>
    match end_ip with
    | Except.error m =>
      ⟨pushResult result_callback [] (pushLog log_callback (errMsg m) st0), ExitKind.fault m⟩
    | Except.ok e =>
      if s > e then
        ⟨pushResult result_callback [] (pushLog log_callback usageMsg st0), ExitKind.usageError⟩
      else
        match ipLoop verbose log_callback result_callback stop probe
            (portList start_port end_port) (List.range' s (e + 1 - s)) st0 with
        | (st, Flow.normal) =>
          ⟨pushResult result_callback st.open_ports st, ExitKind.completed⟩
        | (st, Flow.stopped) => ⟨st, ExitKind.stopped⟩
        | (st, Flow.raised m) =>
          ⟨pushResult result_callback [] (pushLog log_callback (errMsg m) st), ExitKind.fault m⟩

@[simp] theorem pushLog_nChecks (b : Bool) (m : String) (st : ScanSt) :
    (pushLog b m st).nChecks = st.nChecks := by
  unfold pushLog; split <;> rfl

@[simp] theorem pushLog_nProbes (b : Bool) (m : String) (st : ScanSt) :
    (pushLog b m st).nProbes = st.nProbes := by
  unfold pushLog; split <;> rfl

@[simp] theorem pushLog_nSockOpened (b : Bool) (m : String) (st : ScanSt) :
    (pushLog b m st).nSockOpened = st.nSockOpened := by
  unfold pushLog; split <;> rfl

@[simp] theorem pushLog_nSockClosed (b : Bool) (m : String) (st : ScanSt) :
    (pushLog b m st).nSockClosed = st.nSockClosed := by
  unfold pushLog; split <;> rfl

@[simp] theorem pushLog_nClosedProbes (b : Bool) (m : String) (st : ScanSt) :
    (pushLog b m st).nClosedProbes = st.nClosedProbes := by
  unfold pushLog; split <;> rfl

@[simp] theorem pushLog_resultCalls (b : Bool) (m : String) (st : ScanSt) :
    (pushLog b m st).resultCalls = st.resultCalls := by
  unfold pushLog; split <;> rfl

@[simp] theorem pushLog_open_ports (b : Bool) (m : String) (st : ScanSt) :
    (pushLog b m st).open_ports = st.open_ports := by
  unfold pushLog; split <;> rfl

@[simp] theorem pushLog_true_logs (m : String) (st : ScanSt) :
    (pushLog true m st).logs = st.logs ++ [m] := rfl

@[simp] theorem pushLog_false_eq (m : String) (st : ScanSt) :
    pushLog false m st = st := rfl

theorem pushLog_logs_length (b : Bool) (m : String) (st : ScanSt) :
    (pushLog b m st).logs.length = st.logs.length + cond b 1 0 := by
  cases b <;> simp [pushLog]

@[simp] theorem pushResult_nChecks (b : Bool) (r : List (String × Nat)) (st : ScanSt) :
    (pushResult b r st).nChecks = st.nChecks := by
  unfold pushResult; split <;> rfl

@[simp] theorem pushResult_nProbes (b : Bool) (r : List (String × Nat)) (st : ScanSt) :
    (pushResult b r st).nProbes = st.nProbes := by
  unfold pushResult; split <;> rfl

@[simp] theorem pushResult_nSockOpened (b : Bool) (r : List (String × Nat)) (st : ScanSt) :
    (pushResult b r st).nSockOpened = st.nSockOpened := by
  unfold pushResult; split <;> rfl

@[simp] theorem pushResult_nSockClosed (b : Bool) (r : List (String × Nat)) (st : ScanSt) :
    (pushResult b r st).nSockClosed = st.nSockClosed := by
  unfold pushResult; split <;> rfl

@[simp] theorem pushResult_nClosedProbes (b : Bool) (r : List (String × Nat)) (st : ScanSt) :
    (pushResult b r st).nClosedProbes = st.nClosedProbes := by
  unfold pushResult; split <;> rfl

@[simp] theorem pushResult_logs (b : Bool) (r : List (String × Nat)) (st : ScanSt) :
    (pushResult b r st).logs = st.logs := by
  unfold pushResult; split <;> rfl

@[simp] theorem pushResult_open_ports (b : Bool) (r : List (String × Nat)) (st : ScanSt) :
    (pushResult b r st).open_ports = st.open_ports := by
  unfold pushResult; split <;> rfl

@[simp] theorem pushResult_true_resultCalls (r : List (String × Nat)) (st : ScanSt) :
    (pushResult true r st).resultCalls = st.resultCalls ++ [r] := rfl

@[simp] theorem pushResult_false_eq (r : List (String × Nat)) (st : ScanSt) :
    pushResult false r st = st := rfl

@[simp] theorem checkSt_nChecks (st : ScanSt) : (checkSt st).nChecks = st.nChecks + 1 := rfl

@[simp] theorem checkSt_nProbes (st : ScanSt) : (checkSt st).nProbes = st.nProbes := rfl

@[simp] theorem checkSt_nSockOpened (st : ScanSt) :
    (checkSt st).nSockOpened = st.nSockOpened := rfl

@[simp] theorem checkSt_nSockClosed (st : ScanSt) :
    (checkSt st).nSockClosed = st.nSockClosed := rfl

@[simp] theorem checkSt_nClosedProbes (st : ScanSt) :
    (checkSt st).nClosedProbes = st.nClosedProbes := rfl

@[simp] theorem checkSt_logs (st : ScanSt) : (checkSt st).logs = st.logs := rfl

@[simp] theorem checkSt_resultCalls (st : ScanSt) :
    (checkSt st).resultCalls = st.resultCalls := rfl

@[simp] theorem checkSt_open_ports (st : ScanSt) :
    (checkSt st).open_ports = st.open_ports := rfl

@[simp] theorem cancelExit_nChecks (lc rc : Bool) (st : ScanSt) :
    (cancelExit lc rc st).nChecks = st.nChecks + 1 := by
  simp [cancelExit]

@[simp] theorem cancelExit_nProbes (lc rc : Bool) (st : ScanSt) :
    (cancelExit lc rc st).nProbes = st.nProbes := by
  simp [cancelExit]

@[simp] theorem cancelExit_nSockOpened (lc rc : Bool) (st : ScanSt) :
    (cancelExit lc rc st).nSockOpened = st.nSockOpened := by
  simp [cancelExit]

@[simp] theorem cancelExit_nSockClosed (lc rc : Bool) (st : ScanSt) :
    (cancelExit lc rc st).nSockClosed = st.nSockClosed := by
  simp [cancelExit]

@[simp] theorem cancelExit_nClosedProbes (lc rc : Bool) (st : ScanSt) :
    (cancelExit lc rc st).nClosedProbes = st.nClosedProbes := by
  simp [cancelExit]

@[simp] theorem cancelExit_open_ports (lc rc : Bool) (st : ScanSt) :
    (cancelExit lc rc st).open_ports = st.open_ports := by
  simp [cancelExit]

@[simp] theorem cancelExit_true_resultCalls (lc : Bool) (st : ScanSt) :
    (cancelExit lc true st).resultCalls = st.resultCalls ++ [st.open_ports] := by
  simp [cancelExit]

@[simp] theorem cancelExit_true_logs (rc : Bool) (st : ScanSt) :
    (cancelExit true rc st).logs = st.logs ++ [stopMsg] := by
  simp [cancelExit]

theorem cancelExit_logs_length (lc rc : Bool) (st : ScanSt) :
    (cancelExit lc rc st).logs.length = st.logs.length + cond lc 1 0 := by
  cases lc <;> simp [cancelExit]

@[simp] theorem raiseSt_nChecks (st : ScanSt) : (raiseSt st).nChecks = st.nChecks := rfl

@[simp] theorem raiseSt_nProbes (st : ScanSt) : (raiseSt st).nProbes = st.nProbes + 1 := rfl

@[simp] theorem raiseSt_nSockOpened (st : ScanSt) :
    (raiseSt st).nSockOpened = st.nSockOpened + 1 := rfl

@[simp] theorem raiseSt_nSockClosed (st : ScanSt) :
    (raiseSt st).nSockClosed = st.nSockClosed := rfl

@[simp] theorem raiseSt_nClosedProbes (st : ScanSt) :
    (raiseSt st).nClosedProbes = st.nClosedProbes := rfl

@[simp] theorem raiseSt_logs (st : ScanSt) : (raiseSt st).logs = st.logs := rfl

@[simp] theorem raiseSt_resultCalls (st : ScanSt) :
    (raiseSt st).resultCalls = st.resultCalls := rfl

@[simp] theorem raiseSt_open_ports (st : ScanSt) :
    (raiseSt st).open_ports = st.open_ports := rfl

@[simp] theorem probeSt_nChecks (v lc : Bool) (ip : String) (p code : Nat) (st : ScanSt) :
    (probeSt v lc ip p code st).nChecks = st.nChecks := by
  unfold probeSt; split <;> simp

@[simp] theorem probeSt_nProbes (v lc : Bool) (ip : String) (p code : Nat) (st : ScanSt) :
    (probeSt v lc ip p code st).nProbes = st.nProbes + 1 := by
  unfold probeSt; split <;> simp

@[simp] theorem probeSt_nSockOpened (v lc : Bool) (ip : String) (p code : Nat) (st : ScanSt) :
    (probeSt v lc ip p code st).nSockOpened = st.nSockOpened + 1 := by
  unfold probeSt; split <;> simp

@[simp] theorem probeSt_nSockClosed (v lc : Bool) (ip : String) (p code : Nat) (st : ScanSt) :
    (probeSt v lc ip p code st).nSockClosed = st.nSockClosed + 1 := by
  unfold probeSt; split <;> simp

@[simp] theorem probeSt_resultCalls (v lc : Bool) (ip : String) (p code : Nat) (st : ScanSt) :
    (probeSt v lc ip p code st).resultCalls = st.resultCalls := by
  unfold probeSt; split <;> simp

theorem probeSt_nClosedProbes (v lc : Bool) (ip : String) (p code : Nat) (st : ScanSt) :
    (probeSt v lc ip p code st).nClosedProbes =
      st.nClosedProbes + (if code = 0 then 0 else 1) := by
  unfold probeSt; split <;> simp

theorem probeSt_open_ports (v lc : Bool) (ip : String) (p code : Nat) (st : ScanSt) :
    (probeSt v lc ip p code st).open_ports =
      st.open_ports ++ (if code = 0 then [(ip, p)] else []) := by
  unfold probeSt; split <;> simp

theorem probeSt_logs (v : Bool) (ip : String) (p code : Nat) (st : ScanSt) :
    (probeSt v true ip p code st).logs =
      st.logs ++
        (if code = 0 then [openMsg ip p] else if v then [closedMsg ip p] else []) := by
  unfold probeSt
  rcases v <;> split <;> simp

/-- `result_callback` behavior of the port loop (with a callback present):
it is invoked exactly on the cancellation exit, with the accumulated
`open_ports` of the final state. -/
theorem portLoop_resultCalls (v lc : Bool) (stop : Nat → Bool)
    (probe : String → Nat → ProbeRes) (ip : String) :
    ∀ (ps : List Nat) (st : ScanSt),
      ((portLoop v lc true stop probe ip ps st).2 = Flow.stopped →
        (portLoop v lc true stop probe ip ps st).1.resultCalls =
          st.resultCalls ++ [(portLoop v lc true stop probe ip ps st).1.open_ports]) ∧
      ((portLoop v lc true stop probe ip ps st).2 ≠ Flow.stopped →
        (portLoop v lc true stop probe ip ps st).1.resultCalls = st.resultCalls) := by
  intro ps
  induction ps with
  | nil => intro st; simp [portLoop]
  | cons p ps ih =>
    intro st
    by_cases hs : stop st.nChecks
    · simp [portLoop, hs]
    · cases hp : probe ip p with
      | exn m => simp [portLoop, hs, hp]
      | ret code =>
        have hunf : portLoop v lc true stop probe ip (p :: ps) st =
            portLoop v lc true stop probe ip ps
              (probeSt v lc ip p code (checkSt st)) := by
          simp [portLoop, hs, hp]
        rw [hunf]
        rcases ih (probeSt v lc ip p code (checkSt st)) with ⟨h1, h2⟩
        refine ⟨fun hstop => ?_, fun hstop => ?_⟩
        · rw [h1 hstop]; simp
        · rw [h2 hstop]; simp

/-- `result_callback` behavior of the address loop (with a callback
present): invoked exactly on the cancellation exit, with the accumulated
`open_ports` of the final state. -/
theorem ipLoop_resultCalls (v lc : Bool) (stop : Nat → Bool)
    (probe : String → Nat → ProbeRes) (ports : List Nat) :
    ∀ (as : List Nat) (st : ScanSt),
      ((ipLoop v lc true stop probe ports as st).2 = Flow.stopped →
        (ipLoop v lc true stop probe ports as st).1.resultCalls =
          st.resultCalls ++ [(ipLoop v lc true stop probe ports as st).1.open_ports]) ∧
      ((ipLoop v lc true stop probe ports as st).2 ≠ Flow.stopped →
        (ipLoop v lc true stop probe ports as st).1.resultCalls = st.resultCalls) := by
  intro as
  induction as with
  | nil => intro st; simp [ipLoop]
  | cons a as ih =>
    intro st
    by_cases hs : stop st.nChecks
    · simp [ipLoop, hs]
    · rcases hP : portLoop v lc true stop probe (ipStr a) ports (checkSt st) with ⟨st2, f⟩
      rcases portLoop_resultCalls v lc stop probe (ipStr a) ports (checkSt st) with ⟨hp1, hp2⟩
      rw [hP] at hp1 hp2
      simp only [checkSt_resultCalls] at hp1 hp2
      cases f with
      | normal =>
        have hunf : ipLoop v lc true stop probe ports (a :: as) st =
            ipLoop v lc true stop probe ports as st2 := by
          simp [ipLoop, hs, hP]
        rw [hunf]
        rcases ih st2 with ⟨h1, h2⟩
        have hrc : st2.resultCalls = st.resultCalls := hp2 (by simp)
        refine ⟨fun hstop => ?_, fun hstop => ?_⟩
        · rw [h1 hstop, hrc]
        · rw [h2 hstop, hrc]
      | stopped =>
        have hunf : ipLoop v lc true stop probe ports (a :: as) st = (st2, Flow.stopped) := by
          simp [ipLoop, hs, hP]
        rw [hunf]
        refine ⟨fun _ => hp1 rfl, fun hstop => absurd rfl hstop⟩
      | raised m =>
        have hunf : ipLoop v lc true stop probe ports (a :: as) st =
            (st2, Flow.raised m) := by
          simp [ipLoop, hs, hP]
        rw [hunf]
        refine ⟨fun hstop => ?_, fun _ => hp2 (by simp)⟩
        cases hstop

/-- The probe oracle never raises (i.e., `connect_ex` always returns an
error code, as it does for refused and timed-out connections). -/
def noExn (probe : String → Nat → ProbeRes) : Prop :=
  ∀ ip p m, probe ip p ≠ ProbeRes.exn m

/-- Probe and check counts of a port loop that is neither cancelled nor
interrupted by an exception: one probe and one check per port. -/
theorem portLoop_count (v lc rc : Bool) (stop : Nat → Bool)
    (probe : String → Nat → ProbeRes) (ip : String)
    (hstop : ∀ k, stop k = false) (hexn : noExn probe) :
    ∀ (ps : List Nat) (st : ScanSt),
      (portLoop v lc rc stop probe ip ps st).2 = Flow.normal ∧
      (portLoop v lc rc stop probe ip ps st).1.nProbes = st.nProbes + ps.length ∧
      (portLoop v lc rc stop probe ip ps st).1.nChecks = st.nChecks + ps.length := by
  intro ps
  induction ps with
  | nil => intro st; simp [portLoop]
  | cons p ps ih =>
    intro st
    cases hp : probe ip p with
    | exn m => exact absurd hp (hexn ip p m)
    | ret code =>
      have hunf : portLoop v lc rc stop probe ip (p :: ps) st =
          portLoop v lc rc stop probe ip ps (probeSt v lc ip p code (checkSt st)) := by
        simp [portLoop, hstop st.nChecks, hp]
      rw [hunf]
      rcases ih (probeSt v lc ip p code (checkSt st)) with ⟨h1, h2, h3⟩
      refine ⟨h1, ?_, ?_⟩
      · rw [h2]; simp; try omega
      · rw [h3]; simp; try omega

/-- Probe and check counts of an address loop that is neither cancelled
nor interrupted by an exception: per address, one check plus a full port
loop. -/
theorem ipLoop_count (v lc rc : Bool) (stop : Nat → Bool)
    (probe : String → Nat → ProbeRes) (ports : List Nat)
    (hstop : ∀ k, stop k = false) (hexn : noExn probe) :
    ∀ (as : List Nat) (st : ScanSt),
      (ipLoop v lc rc stop probe ports as st).2 = Flow.normal ∧
      (ipLoop v lc rc stop probe ports as st).1.nProbes =
        st.nProbes + as.length * ports.length ∧
      (ipLoop v lc rc stop probe ports as st).1.nChecks =
        st.nChecks + as.length * (1 + ports.length) := by
  intro as
  induction as with
  | nil => intro st; simp [ipLoop]
  | cons a as ih =>
    intro st
    rcases hP : portLoop v lc rc stop probe (ipStr a) ports (checkSt st) with ⟨st2, f⟩
    rcases portLoop_count v lc rc stop probe (ipStr a) hstop hexn ports (checkSt st)
      with ⟨hf, hprobes, hchecks⟩
    rw [hP] at hf hprobes hchecks
    simp only at hf
    subst hf
    have hunf : ipLoop v lc rc stop probe ports (a :: as) st =
        ipLoop v lc rc stop probe ports as st2 := by
      simp [ipLoop, hstop st.nChecks, hP]
    rw [hunf]
    rcases ih st2 with ⟨h1, h2, h3⟩
    refine ⟨h1, ?_, ?_⟩
    · rw [h2, hprobes]; simp; ring_nf; try omega
    · rw [h3, hchecks]; simp; ring_nf; try omega

/-- With an empty port range (`start_port > end_port`) and no
cancellation, the address loop only burns one check per address and
changes nothing else. -/
theorem ipLoop_nilPorts (v lc rc : Bool) (stop : Nat → Bool)
    (probe : String → Nat → ProbeRes) (hstop : ∀ k, stop k = false) :
    ∀ (as : List Nat) (st : ScanSt),
      ipLoop v lc rc stop probe [] as st =
        ({st with nChecks := st.nChecks + as.length}, Flow.normal) := by
  intro as
  induction as with
  | nil => intro st; simp [ipLoop]
  | cons a as ih =>
    intro st
    have hunf : ipLoop v lc rc stop probe [] (a :: as) st =
        ipLoop v lc rc stop probe [] as (checkSt st) := by
      simp [ipLoop, hstop st.nChecks, portLoop]
    rw [hunf, ih (checkSt st)]
    have harith : st.nChecks + 1 + as.length = st.nChecks + (as.length + 1) := by omega
    simp [checkSt, harith]

/-- Socket accounting of the port loop: `socket.socket(...)` runs once per
probe; `sock.close()` runs once per probe, except for the probe whose
`connect_ex` raised, whose close is skipped. -/
theorem portLoop_sockets (v lc rc : Bool) (stop : Nat → Bool)
    (probe : String → Nat → ProbeRes) (ip : String) :
    ∀ (ps : List Nat) (st : ScanSt),
      (portLoop v lc rc stop probe ip ps st).1.nSockOpened + st.nProbes =
        st.nSockOpened + (portLoop v lc rc stop probe ip ps st).1.nProbes ∧
      ((∀ m, (portLoop v lc rc stop probe ip ps st).2 ≠ Flow.raised m) →
        (portLoop v lc rc stop probe ip ps st).1.nSockClosed + st.nProbes =
          st.nSockClosed + (portLoop v lc rc stop probe ip ps st).1.nProbes) ∧
      (∀ m, (portLoop v lc rc stop probe ip ps st).2 = Flow.raised m →
        (portLoop v lc rc stop probe ip ps st).1.nSockClosed + st.nProbes + 1 =
          st.nSockClosed + (portLoop v lc rc stop probe ip ps st).1.nProbes) := by
  intro ps
  induction ps with
  | nil => intro st; simp [portLoop]
  | cons p ps ih =>
    intro st
    by_cases hs : stop st.nChecks
    · refine ⟨?_, ?_, ?_⟩ <;> simp [portLoop, hs]
    · cases hp : probe ip p with
      | exn m =>
        refine ⟨?_, ?_, ?_⟩ <;> simp [portLoop, hs, hp] <;> omega
      | ret code =>
        have hunf : portLoop v lc rc stop probe ip (p :: ps) st =
            portLoop v lc rc stop probe ip ps (probeSt v lc ip p code (checkSt st)) := by
          simp [portLoop, hs, hp]
        rw [hunf]
        rcases ih (probeSt v lc ip p code (checkSt st)) with ⟨h1, h2, h3⟩
        simp only [probeSt_nSockOpened, probeSt_nSockClosed, probeSt_nProbes,
          checkSt_nProbes, checkSt_nSockOpened, checkSt_nSockClosed] at h1 h2 h3
        refine ⟨by omega, fun hne => ?_, fun m hr => ?_⟩
        · have := h2 hne; omega
        · have := h3 m hr; omega

/-- Socket accounting of the address loop: composed from
`portLoop_sockets`, one level up. -/
theorem ipLoop_sockets (v lc rc : Bool) (stop : Nat → Bool)
    (probe : String → Nat → ProbeRes) (ports : List Nat) :
    ∀ (as : List Nat) (st : ScanSt),
      (ipLoop v lc rc stop probe ports as st).1.nSockOpened + st.nProbes =
        st.nSockOpened + (ipLoop v lc rc stop probe ports as st).1.nProbes ∧
      ((∀ m, (ipLoop v lc rc stop probe ports as st).2 ≠ Flow.raised m) →
        (ipLoop v lc rc stop probe ports as st).1.nSockClosed + st.nProbes =
          st.nSockClosed + (ipLoop v lc rc stop probe ports as st).1.nProbes) ∧
      (∀ m, (ipLoop v lc rc stop probe ports as st).2 = Flow.raised m →
        (ipLoop v lc rc stop probe ports as st).1.nSockClosed + st.nProbes + 1 =
          st.nSockClosed + (ipLoop v lc rc stop probe ports as st).1.nProbes) := by
  intro as
  induction as with
  | nil => intro st; simp [ipLoop]
  | cons a as ih =>
    intro st
    by_cases hs : stop st.nChecks
    · refine ⟨?_, ?_, ?_⟩ <;> simp [ipLoop, hs]
    · rcases hP : portLoop v lc rc stop probe (ipStr a) ports (checkSt st) with ⟨st2, f⟩
      rcases portLoop_sockets v lc rc stop probe (ipStr a) ports (checkSt st)
        with ⟨hp1, hp2, hp3⟩
      rw [hP] at hp1 hp2 hp3
      simp only [checkSt_nProbes, checkSt_nSockOpened, checkSt_nSockClosed] at hp1 hp2 hp3
      cases f with
      | normal =>
        have hunf : ipLoop v lc rc stop probe ports (a :: as) st =
            ipLoop v lc rc stop probe ports as st2 := by
          simp [ipLoop, hs, hP]
        rw [hunf]
        rcases ih st2 with ⟨h1, h2, h3⟩
        have hcl : st2.nSockClosed + st.nProbes = st.nSockClosed + st2.nProbes :=
          hp2 (by simp)
        refine ⟨by omega, fun hne => ?_, fun m hr => ?_⟩
        · have := h2 hne; omega
        · have := h3 m hr; omega
      | stopped =>
        have hunf : ipLoop v lc rc stop probe ports (a :: as) st = (st2, Flow.stopped) := by
          simp [ipLoop, hs, hP]
        rw [hunf]
        have hcl : st2.nSockClosed + st.nProbes = st.nSockClosed + st2.nProbes :=
          hp2 (by simp)
        refine ⟨hp1, fun _ => hcl, fun m hr => ?_⟩
        cases hr
      | raised m =>
        have hunf : ipLoop v lc rc stop probe ports (a :: as) st =
            (st2, Flow.raised m) := by
          simp [ipLoop, hs, hP]
        rw [hunf]
        refine ⟨hp1, fun hne => absurd rfl (hne m), fun m' hr => ?_⟩
        have hm : m' = m := by cases hr; rfl
        subst hm
        exact hp3 m' rfl

/-- The Open results one address contributes: the ports of `ps` whose
probe returns code `0`, paired with the address, in port order. -/
def openFilter (probe : String → Nat → ProbeRes) (ip : String) (ps : List Nat) :
    List (String × Nat) :=
  ps.filterMap (fun p => if probe ip p = ProbeRes.ret 0 then some (ip, p) else none)

/-- All Open results of a full scan of addresses `s..e` and ports
`sp..ep`, in address-then-port order. -/
def openPairs (probe : String → Nat → ProbeRes) (s e sp ep : Nat) :
    List (String × Nat) :=
  (List.range' s (e + 1 - s)).flatMap (fun a => openFilter probe (ipStr a) (portList sp ep))

/-- A port loop that falls through normally appended exactly the Open
results of its port list, in order. -/
theorem portLoop_open_normal (v lc rc : Bool) (stop : Nat → Bool)
    (probe : String → Nat → ProbeRes) (ip : String) :
    ∀ (ps : List Nat) (st : ScanSt),
      (portLoop v lc rc stop probe ip ps st).2 = Flow.normal →
      (portLoop v lc rc stop probe ip ps st).1.open_ports =
        st.open_ports ++ openFilter probe ip ps := by
  intro ps
  induction ps with
  | nil => intro st _; simp [portLoop, openFilter]
  | cons p ps ih =>
    intro st hn
    by_cases hs : stop st.nChecks
    · simp [portLoop, hs] at hn
    · cases hp : probe ip p with
      | exn m => simp [portLoop, hs, hp] at hn
      | ret code =>
        have hunf : portLoop v lc rc stop probe ip (p :: ps) st =
            portLoop v lc rc stop probe ip ps (probeSt v lc ip p code (checkSt st)) := by
          simp [portLoop, hs, hp]
        rw [hunf] at hn ⊢
        rw [ih (probeSt v lc ip p code (checkSt st)) hn]
        rw [probeSt_open_ports]
        simp only [checkSt_open_ports]
        by_cases hc : code = 0
        · subst hc
          simp [openFilter, hp]
        · have hne : probe ip p ≠ ProbeRes.ret 0 := by
            rw [hp]; intro h; exact hc (by injection h)
          simp [openFilter, hne, hc]

/-- An address loop that falls through normally appended exactly the Open
results of all its addresses, in address-then-port order. -/
theorem ipLoop_open_normal (v lc rc : Bool) (stop : Nat → Bool)
    (probe : String → Nat → ProbeRes) (ports : List Nat) :
    ∀ (as : List Nat) (st : ScanSt),
      (ipLoop v lc rc stop probe ports as st).2 = Flow.normal →
      (ipLoop v lc rc stop probe ports as st).1.open_ports =
        st.open_ports ++ as.flatMap (fun a => openFilter probe (ipStr a) ports) := by
  intro as
  induction as with
  | nil => intro st _; simp [ipLoop]
  | cons a as ih =>
    intro st hn
    by_cases hs : stop st.nChecks
    · simp [ipLoop, hs] at hn
    · rcases hP : portLoop v lc rc stop probe (ipStr a) ports (checkSt st) with ⟨st2, f⟩
      cases f with
      | normal =>
        have hunf : ipLoop v lc rc stop probe ports (a :: as) st =
            ipLoop v lc rc stop probe ports as st2 := by
          simp [ipLoop, hs, hP]
        rw [hunf] at hn ⊢
        have hport := portLoop_open_normal v lc rc stop probe (ipStr a) ports (checkSt st)
        rw [hP] at hport
        have hport2 : st2.open_ports = st.open_ports ++ openFilter probe (ipStr a) ports := by
          simpa using hport rfl
        rw [ih st2 hn, hport2]
        simp
      | stopped =>
        have hunf : ipLoop v lc rc stop probe ports (a :: as) st = (st2, Flow.stopped) := by
          simp [ipLoop, hs, hP]
        rw [hunf] at hn
        cases hn
      | raised m =>
        have hunf : ipLoop v lc rc stop probe ports (a :: as) st =
            (st2, Flow.raised m) := by
          simp [ipLoop, hs, hP]
        rw [hunf] at hn
        cases hn

theorem stopMsg_ne_openMsg (ip : String) (p : Nat) : stopMsg ≠ openMsg ip p := by
  intro h
  have hd := congrArg (fun s => s.data.head?) h
  simp only [stopMsg, openMsg, String.data_append] at hd
  simp at hd

theorem stopMsg_ne_closedMsg (ip : String) (p : Nat) : stopMsg ≠ closedMsg ip p := by
  intro h
  have hd := congrArg (fun s => s.data.head?) h
  simp only [stopMsg, closedMsg, String.data_append] at hd
  simp at hd

/-- Log behavior of the port loop around cancellation (with a log
callback): the stop line is logged exactly on the cancellation exit, as
the final line, and probe logs never collide with it. -/
theorem portLoop_stopLog (v rc : Bool) (stop : Nat → Bool)
    (probe : String → Nat → ProbeRes) (ip : String) :
    ∀ (ps : List Nat) (st : ScanSt), stopMsg ∉ st.logs →
      ((portLoop v true rc stop probe ip ps st).2 = Flow.stopped →
        ∃ l, (portLoop v true rc stop probe ip ps st).1.logs = l ++ [stopMsg] ∧
          stopMsg ∉ l) ∧
      ((portLoop v true rc stop probe ip ps st).2 ≠ Flow.stopped →
        stopMsg ∉ (portLoop v true rc stop probe ip ps st).1.logs) := by
  intro ps
  induction ps with
  | nil => intro st hmem; simpa [portLoop] using hmem
  | cons p ps ih =>
    intro st hmem
    by_cases hs : stop st.nChecks
    · refine ⟨fun _ => ⟨st.logs, ?_, hmem⟩, fun hne => ?_⟩
      · simp [portLoop, hs]
      · simp [portLoop, hs] at hne
    · cases hp : probe ip p with
      | exn m =>
        refine ⟨fun hstop => ?_, fun _ => ?_⟩
        · simp [portLoop, hs, hp] at hstop
        · simpa [portLoop, hs, hp] using hmem
      | ret code =>
        have hunf : portLoop v true rc stop probe ip (p :: ps) st =
            portLoop v true rc stop probe ip ps (probeSt v true ip p code (checkSt st)) := by
          simp [portLoop, hs, hp]
        rw [hunf]
        have hmem2 : stopMsg ∉ (probeSt v true ip p code (checkSt st)).logs := by
          rw [probeSt_logs]
          simp only [checkSt_logs, List.mem_append]
          rintro (h | h)
          · exact hmem h
          · by_cases hc : code = 0
            · simp only [hc, if_pos, if_true, List.mem_singleton] at h
              exact stopMsg_ne_openMsg ip p h
            · rcases v with _ | _
              · simp [hc] at h
              · simp only [hc, if_neg, if_false, ite_true, List.mem_singleton] at h
                exact stopMsg_ne_closedMsg ip p h
        exact ih (probeSt v true ip p code (checkSt st)) hmem2

/-- Log behavior of the address loop around cancellation (with a log
callback): the stop line is logged exactly on the cancellation exit, as
the final line. -/
theorem ipLoop_stopLog (v rc : Bool) (stop : Nat → Bool)
    (probe : String → Nat → ProbeRes) (ports : List Nat) :
    ∀ (as : List Nat) (st : ScanSt), stopMsg ∉ st.logs →
      ((ipLoop v true rc stop probe ports as st).2 = Flow.stopped →
        ∃ l, (ipLoop v true rc stop probe ports as st).1.logs = l ++ [stopMsg] ∧
          stopMsg ∉ l) ∧
      ((ipLoop v true rc stop probe ports as st).2 ≠ Flow.stopped →
        stopMsg ∉ (ipLoop v true rc stop probe ports as st).1.logs) := by
  intro as
  induction as with
  | nil => intro st hmem; simpa [ipLoop] using hmem
  | cons a as ih =>
    intro st hmem
    by_cases hs : stop st.nChecks
    · refine ⟨fun _ => ⟨st.logs, ?_, hmem⟩, fun hne => ?_⟩
      · simp [ipLoop, hs]
      · simp [ipLoop, hs] at hne
    · rcases hP : portLoop v true rc stop probe (ipStr a) ports (checkSt st) with ⟨st2, f⟩
      rcases portLoop_stopLog v rc stop probe (ipStr a) ports (checkSt st)
        (by simpa using hmem) with ⟨hp1, hp2⟩
      rw [hP] at hp1 hp2
      cases f with
      | normal =>
        have hunf : ipLoop v true rc stop probe ports (a :: as) st =
            ipLoop v true rc stop probe ports as st2 := by
          simp [ipLoop, hs, hP]
        rw [hunf]
        exact ih st2 (hp2 (by simp))
      | stopped =>
        have hunf : ipLoop v true rc stop probe ports (a :: as) st = (st2, Flow.stopped) := by
          simp [ipLoop, hs, hP]
        rw [hunf]
        exact ⟨fun _ => hp1 rfl, fun hne => absurd rfl hne⟩
      | raised m =>
        have hunf : ipLoop v true rc stop probe ports (a :: as) st =
            (st2, Flow.raised m) := by
          simp [ipLoop, hs, hP]
        rw [hunf]
        refine ⟨fun hstop => ?_, fun _ => hp2 (by simp)⟩
        cases hstop

/-- Strict address-then-port order on integer (address, port) pairs. -/
def lexLT (x y : Nat × Nat) : Prop := x.1 < y.1 ∨ (x.1 = y.1 ∧ x.2 < y.2)

/-- Render a list of integer (address, port) pairs the way the engine
stores results: dotted-decimal address string and port. -/
def renderL (l : List (Nat × Nat)) : List (String × Nat) :=
  l.map (fun q => (ipStr q.1, q.2))

/-- Open-results invariant of the port loop at integer address `a`: if
`open_ports` renders a strictly `lexLT`-sorted list of Open-classified
pairs all below the current scan position, it still does afterwards, with
every pair at address at most `a`. -/
theorem portLoop_sorted (v lc rc : Bool) (stop : Nat → Bool)
    (probe : String → Nat → ProbeRes) (a : Nat) :
    ∀ (ps : List Nat) (st : ScanSt) (l : List (Nat × Nat)),
      st.open_ports = renderL l →
      (∀ q ∈ l, probe (ipStr q.1) q.2 = ProbeRes.ret 0) →
      l.Pairwise lexLT →
      (∀ q ∈ l, q.1 < a ∨ (q.1 = a ∧ ∀ p ∈ ps, q.2 < p)) →
      ps.Pairwise (· < ·) →
      ∃ l', (portLoop v lc rc stop probe (ipStr a) ps st).1.open_ports = renderL l' ∧
        (∀ q ∈ l', probe (ipStr q.1) q.2 = ProbeRes.ret 0) ∧
        l'.Pairwise lexLT ∧ (∀ q ∈ l', q.1 ≤ a) := by
  intro ps
  induction ps with
  | nil =>
    intro st l h1 h2 h3 h4 _
    refine ⟨l, by simpa [portLoop] using h1, h2, h3, fun q hq => ?_⟩
    rcases h4 q hq with h | ⟨h, _⟩
    · exact Nat.le_of_lt h
    · exact Nat.le_of_eq h
  | cons p ps ih =>
    intro st l h1 h2 h3 h4 h5
    have hle : ∀ q ∈ l, q.1 ≤ a := by
      intro q hq
      rcases h4 q hq with h | ⟨h, _⟩
      · exact Nat.le_of_lt h
      · exact Nat.le_of_eq h
    by_cases hs : stop st.nChecks
    · exact ⟨l, by simpa [portLoop, hs] using h1, h2, h3, hle⟩
    · cases hp : probe (ipStr a) p with
      | exn m => exact ⟨l, by simpa [portLoop, hs, hp] using h1, h2, h3, hle⟩
      | ret code =>
        have hunf : portLoop v lc rc stop probe (ipStr a) (p :: ps) st =
            portLoop v lc rc stop probe (ipStr a) ps
              (probeSt v lc (ipStr a) p code (checkSt st)) := by
          simp [portLoop, hs, hp]
        rw [hunf]
        have h5' : ps.Pairwise (· < ·) := h5.sublist (List.sublist_cons_self p ps)
        by_cases hc : code = 0
        · subst hc
          refine ih (probeSt v lc (ipStr a) p 0 (checkSt st)) (l ++ [(a, p)]) ?_ ?_ ?_ ?_ h5'
          · rw [probeSt_open_ports]
            simp [renderL, h1]
          · intro q hq
            rcases List.mem_append.mp hq with hql | hqr
            · exact h2 q hql
            · rcases List.mem_singleton.mp hqr with rfl
              exact hp
          · rw [List.pairwise_append]
            refine ⟨h3, List.pairwise_singleton _ _, fun q hql q' hq' => ?_⟩
            rcases List.mem_singleton.mp hq' with rfl
            rcases h4 q hql with h | ⟨heq, hlt⟩
            · exact Or.inl h
            · exact Or.inr ⟨heq, hlt p (List.mem_cons_self p ps)⟩
          · intro q hq
            rcases List.mem_append.mp hq with hql | hqr
            · rcases h4 q hql with h | ⟨heq, hlt⟩
              · exact Or.inl h
              · exact Or.inr ⟨heq, fun p' hp' => hlt p' (List.mem_cons_of_mem p hp')⟩
            · rcases List.mem_singleton.mp hqr with rfl
              refine Or.inr ⟨rfl, fun p' hp' => ?_⟩
              exact (List.pairwise_cons.mp h5).1 p' hp'
        · refine ih (probeSt v lc (ipStr a) p code (checkSt st)) l ?_ h2 h3 ?_ h5'
          · rw [probeSt_open_ports]
            simp [hc, h1]
          · intro q hq
            rcases h4 q hq with h | ⟨heq, hlt⟩
            · exact Or.inl h
            · exact Or.inr ⟨heq, fun p' hp' => hlt p' (List.mem_cons_of_mem p hp')⟩

/-- Open-results invariant of the address loop: starting from a rendered,
sorted, Open-only accumulator whose addresses precede every remaining
address, the final accumulator is still rendered, sorted and Open-only. -/
theorem ipLoop_sorted (v lc rc : Bool) (stop : Nat → Bool)
    (probe : String → Nat → ProbeRes) (ports : List Nat)
    (hports : ports.Pairwise (· < ·)) :
    ∀ (as : List Nat) (st : ScanSt) (l : List (Nat × Nat)),
      st.open_ports = renderL l →
      (∀ q ∈ l, probe (ipStr q.1) q.2 = ProbeRes.ret 0) →
      l.Pairwise lexLT →
      (∀ q ∈ l, ∀ a ∈ as, q.1 < a) →
      as.Pairwise (· < ·) →
      ∃ l', (ipLoop v lc rc stop probe ports as st).1.open_ports = renderL l' ∧
        (∀ q ∈ l', probe (ipStr q.1) q.2 = ProbeRes.ret 0) ∧
        l'.Pairwise lexLT := by
  intro as
  induction as with
  | nil =>
    intro st l h1 h2 h3 _ _
    exact ⟨l, by simpa [ipLoop] using h1, h2, h3⟩
  | cons a as ih =>
    intro st l h1 h2 h3 h4 h5
    by_cases hs : stop st.nChecks
    · exact ⟨l, by simpa [ipLoop, hs] using h1, h2, h3⟩
    · rcases portLoop_sorted v lc rc stop probe a ports (checkSt st) l
        (by simpa using h1) h2 h3
        (fun q hq => Or.inl (h4 q hq a (List.mem_cons_self a as))) hports
        with ⟨l2, hl1, hl2, hl3, hl4⟩
      rcases hP : portLoop v lc rc stop probe (ipStr a) ports (checkSt st) with ⟨st2, f⟩
      rw [hP] at hl1
      cases f with
      | normal =>
        have hunf : ipLoop v lc rc stop probe ports (a :: as) st =
            ipLoop v lc rc stop probe ports as st2 := by
          simp [ipLoop, hs, hP]
        rw [hunf]
        refine ih st2 l2 hl1 hl2 hl3 (fun q hq a' ha' => ?_)
          (h5.sublist (List.sublist_cons_self a as))
        have haa : a < a' := (List.pairwise_cons.mp h5).1 a' ha'
        exact Nat.lt_of_le_of_lt (hl4 q hq) haa
      | stopped =>
        have hunf : ipLoop v lc rc stop probe ports (a :: as) st = (st2, Flow.stopped) := by
          simp [ipLoop, hs, hP]
        rw [hunf]
        exact ⟨l2, hl1, hl2, hl3⟩
      | raised m =>
        have hunf : ipLoop v lc rc stop probe ports (a :: as) st =
            (st2, Flow.raised m) := by
          simp [ipLoop, hs, hP]
        rw [hunf]
        exact ⟨l2, hl1, hl2, hl3⟩

/-- Two run states that agree on everything an engine decision or a
result can depend on — all fields except the log text. -/
def eqNoLogs (a b : ScanSt) : Prop :=
  a.nChecks = b.nChecks ∧ a.nProbes = b.nProbes ∧ a.nSockOpened = b.nSockOpened ∧
  a.nSockClosed = b.nSockClosed ∧ a.nClosedProbes = b.nClosedProbes ∧
  a.resultCalls = b.resultCalls ∧ a.open_ports = b.open_ports

theorem cancelExit_resultCalls (lc rc : Bool) (st : ScanSt) :
    (cancelExit lc rc st).resultCalls =
      st.resultCalls ++ (if rc then [st.open_ports] else []) := by
  cases rc <;> simp [cancelExit]

theorem pushResult_resultCalls (b : Bool) (r : List (String × Nat)) (st : ScanSt) :
    (pushResult b r st).resultCalls = st.resultCalls ++ (if b then [r] else []) := by
  cases b <;> simp [pushResult]

theorem probeSt_logs_length (v lc : Bool) (ip : String) (p code : Nat) (st : ScanSt) :
    (probeSt v lc ip p code st).logs.length =
      st.logs.length + (if code = 0 then cond lc 1 0 else cond (v && lc) 1 0) := by
  unfold probeSt
  by_cases hc : code = 0 <;> simp [hc, pushLog_logs_length]

theorem eqNoLogs_cancelExit (lc lc2 rc : Bool) {a b : ScanSt} (h : eqNoLogs a b) :
    eqNoLogs (cancelExit lc rc a) (cancelExit lc2 rc b) := by
  obtain ⟨h1, h2, h3, h4, h5, h6, h7⟩ := h
  exact ⟨by simp [h1], by simp [h2], by simp [h3], by simp [h4], by simp [h5],
    by simp [cancelExit_resultCalls, h6, h7], by simp [h7]⟩

theorem eqNoLogs_probeSt (v v2 lc lc2 : Bool) (ip : String) (p code : Nat)
    {a b : ScanSt} (h : eqNoLogs a b) :
    eqNoLogs (probeSt v lc ip p code (checkSt a)) (probeSt v2 lc2 ip p code (checkSt b)) := by
  obtain ⟨h1, h2, h3, h4, h5, h6, h7⟩ := h
  exact ⟨by simp [h1], by simp [h2], by simp [h3], by simp [h4],
    by simp [probeSt_nClosedProbes, h5], by simp [h6],
    by simp [probeSt_open_ports, h7]⟩

theorem eqNoLogs_raiseSt {a b : ScanSt} (h : eqNoLogs a b) :
    eqNoLogs (raiseSt (checkSt a)) (raiseSt (checkSt b)) := by
  obtain ⟨h1, h2, h3, h4, h5, h6, h7⟩ := h
  exact ⟨by simp [h1], by simp [h2], by simp [h3], by simp [h4], by simp [h5],
    by simp [h6], by simp [h7]⟩

/-- The verbose flag does not influence the port loop's control flow or
any non-log field; with a log callback present, the verbose run's log
grows by exactly one line per Closed-classified probe. -/
theorem portLoop_verbose (rc : Bool) (stop : Nat → Bool)
    (probe : String → Nat → ProbeRes) (ip : String) :
    ∀ (ps : List Nat) (a b : ScanSt), eqNoLogs a b →
      (portLoop true true rc stop probe ip ps a).2 =
        (portLoop false true rc stop probe ip ps b).2 ∧
      eqNoLogs (portLoop true true rc stop probe ip ps a).1
        (portLoop false true rc stop probe ip ps b).1 ∧
      (portLoop true true rc stop probe ip ps a).1.logs.length + b.logs.length +
          a.nClosedProbes =
        (portLoop false true rc stop probe ip ps b).1.logs.length + a.logs.length +
          (portLoop true true rc stop probe ip ps a).1.nClosedProbes := by
  intro ps
  induction ps with
  | nil =>
    intro a b h
    refine ⟨rfl, by simpa [portLoop] using h, ?_⟩
    have hC : a.nClosedProbes = b.nClosedProbes := h.2.2.2.2.1
    simp [portLoop]
    omega
  | cons p ps ih =>
    intro a b h
    have hchk : a.nChecks = b.nChecks := h.1
    by_cases hs : stop a.nChecks
    · have hsb : stop b.nChecks := by rw [← hchk]; exact hs
      have hrel := eqNoLogs_cancelExit true true rc h
      refine ⟨by simp [portLoop, hs, hsb], by simpa [portLoop, hs, hsb] using hrel, ?_⟩
      simp [portLoop, hs, hsb, cancelExit_logs_length]
      omega
    · have hsb : ¬ stop b.nChecks := by rw [← hchk]; exact hs
      cases hp : probe ip p with
      | exn m =>
        have hrel := eqNoLogs_raiseSt h
        refine ⟨by simp [portLoop, hs, hsb, hp], by simpa [portLoop, hs, hsb, hp] using hrel, ?_⟩
        have hC : a.nClosedProbes = b.nClosedProbes := h.2.2.2.2.1
        simp [portLoop, hs, hsb, hp]
        omega
      | ret code =>
        have hunfa : portLoop true true rc stop probe ip (p :: ps) a =
            portLoop true true rc stop probe ip ps
              (probeSt true true ip p code (checkSt a)) := by
          simp [portLoop, hs, hp]
        have hunfb : portLoop false true rc stop probe ip (p :: ps) b =
            portLoop false true rc stop probe ip ps
              (probeSt false true ip p code (checkSt b)) := by
          simp [portLoop, hsb, hp]
        rw [hunfa, hunfb]
        rcases ih (probeSt true true ip p code (checkSt a))
          (probeSt false true ip p code (checkSt b))
          (eqNoLogs_probeSt true false true true ip p code h) with ⟨g1, g2, g3⟩
        refine ⟨g1, g2, ?_⟩
        have hLa : (probeSt true true ip p code (checkSt a)).logs.length =
            a.logs.length + 1 := by
          rw [probeSt_logs_length]
          by_cases hc : code = 0 <;> simp [hc]
        have hLb : (probeSt false true ip p code (checkSt b)).logs.length =
            b.logs.length + (if code = 0 then 1 else 0) := by
          rw [probeSt_logs_length]; simp
        have hCa : (probeSt true true ip p code (checkSt a)).nClosedProbes =
            a.nClosedProbes + (if code = 0 then 0 else 1) := by
          rw [probeSt_nClosedProbes]; simp
        by_cases hc : code = 0
        · rw [if_pos hc] at hLb
          rw [if_pos hc] at hCa
          omega
        · rw [if_neg hc] at hLb
          rw [if_neg hc] at hCa
          omega

/-- The verbose flag does not influence the address loop's control flow
or any non-log field; the verbose run logs exactly one extra line per
Closed-classified probe. -/
theorem ipLoop_verbose (rc : Bool) (stop : Nat → Bool)
    (probe : String → Nat → ProbeRes) (ports : List Nat) :
    ∀ (as : List Nat) (a b : ScanSt), eqNoLogs a b →
      (ipLoop true true rc stop probe ports as a).2 =
        (ipLoop false true rc stop probe ports as b).2 ∧
      eqNoLogs (ipLoop true true rc stop probe ports as a).1
        (ipLoop false true rc stop probe ports as b).1 ∧
      (ipLoop true true rc stop probe ports as a).1.logs.length + b.logs.length +
          a.nClosedProbes =
        (ipLoop false true rc stop probe ports as b).1.logs.length + a.logs.length +
          (ipLoop true true rc stop probe ports as a).1.nClosedProbes := by
  intro as
  induction as with
  | nil =>
    intro a b h
    refine ⟨rfl, by simpa [ipLoop] using h, ?_⟩
    have hC : a.nClosedProbes = b.nClosedProbes := h.2.2.2.2.1
    simp [ipLoop]
    omega
  | cons x as ih =>
    intro a b h
    have hchk : a.nChecks = b.nChecks := h.1
    by_cases hs : stop a.nChecks
    · have hsb : stop b.nChecks := by rw [← hchk]; exact hs
      have hrel := eqNoLogs_cancelExit true true rc h
      refine ⟨by simp [ipLoop, hs, hsb], by simpa [ipLoop, hs, hsb] using hrel, ?_⟩
      simp [ipLoop, hs, hsb, cancelExit_logs_length]
      omega
    · have hsb : ¬ stop b.nChecks := by rw [← hchk]; exact hs
      have hchkrel : eqNoLogs (checkSt a) (checkSt b) := by
        obtain ⟨h1, h2, h3, h4, h5, h6, h7⟩ := h
        exact ⟨by simp [h1], by simp [h2], by simp [h3], by simp [h4], by simp [h5],
          by simp [h6], by simp [h7]⟩
      rcases portLoop_verbose rc stop probe (ipStr x) ports (checkSt a) (checkSt b)
        hchkrel with ⟨q1, q2, q3⟩
      rcases hPa : portLoop true true rc stop probe (ipStr x) ports (checkSt a)
        with ⟨sa, fa⟩
      rcases hPb : portLoop false true rc stop probe (ipStr x) ports (checkSt b)
        with ⟨sb, fb⟩
      rw [hPa, hPb] at q1 q2 q3
      simp only at q1
      simp only [checkSt_logs, checkSt_nClosedProbes] at q3
      subst q1
      cases fa with
      | normal =>
        have hunfa : ipLoop true true rc stop probe ports (x :: as) a =
            ipLoop true true rc stop probe ports as sa := by
          simp [ipLoop, hs, hPa]
        have hunfb : ipLoop false true rc stop probe ports (x :: as) b =
            ipLoop false true rc stop probe ports as sb := by
          simp [ipLoop, hsb, hPb]
        rw [hunfa, hunfb]
        rcases ih sa sb q2 with ⟨g1, g2, g3⟩
        have hCsa : sa.nClosedProbes = sb.nClosedProbes := q2.2.2.2.2.1
        refine ⟨g1, g2, by omega⟩
      | stopped =>
        have hunfa : ipLoop true true rc stop probe ports (x :: as) a =
            (sa, Flow.stopped) := by
          simp [ipLoop, hs, hPa]
        have hunfb : ipLoop false true rc stop probe ports (x :: as) b =
            (sb, Flow.stopped) := by
          simp [ipLoop, hsb, hPb]
        rw [hunfa, hunfb]
        refine ⟨rfl, q2, ?_⟩
        show sa.logs.length + b.logs.length + a.nClosedProbes =
          sb.logs.length + a.logs.length + sa.nClosedProbes
        omega
      | raised m =>
        have hunfa : ipLoop true true rc stop probe ports (x :: as) a =
            (sa, Flow.raised m) := by
          simp [ipLoop, hs, hPa]
        have hunfb : ipLoop false true rc stop probe ports (x :: as) b =
            (sb, Flow.raised m) := by
          simp [ipLoop, hsb, hPb]
        rw [hunfa, hunfb]
        refine ⟨rfl, q2, ?_⟩
        show sa.logs.length + b.logs.length + a.nClosedProbes =
          sb.logs.length + a.logs.length + sa.nClosedProbes
        omega

/-- `"⏹️ Escaneo detenido por el usuario."` (Spanish copy). -/
def stopMsgEs : String := "⏹️ Escaneo detenido por el usuario."

/-- `"Error: La IP inicial no puede ser mayor que la final."` (Spanish copy). -/
def usageMsgEs : String := "Error: La IP inicial no puede ser mayor que la final."

/-- `f"✓ Puerto ABIERTO → IP: {ip_address}, Puerto: {port}"` (Spanish copy). -/
def openMsgEs (ip : String) (port : Nat) : String :=
  "✓ Puerto ABIERTO → IP: " ++ ip ++ ", Puerto: " ++ toString port

/-- `f"  Puerto CERRADO → IP: {ip_address}, Puerto: {port}"` (Spanish copy). -/
def closedMsgEs (ip : String) (port : Nat) : String :=
  "  Puerto CERRADO → IP: " ++ ip ++ ", Puerto: " ++ toString port

/-- `f"❌ Error durante el escaneo: {e}"` (Spanish copy). -/
def errMsgEs (e : String) : String := "❌ Error durante el escaneo: " ++ e

/-- The cancellation block of the Spanish copy. -/
def cancelExitEs (log_callback result_callback : Bool) (st : ScanSt) : ScanSt :=
  let st1 := checkSt st
  let st2 := pushLog log_callback stopMsgEs st1
  pushResult result_callback st2.open_ports st2

/-- A returning probe of the Spanish copy (identical to `probeSt` except
for the two message strings). -/
def probeStEs (verbose log_callback : Bool) (ip : String) (p : Nat) (code : Nat)
    (st : ScanSt) : ScanSt :=
  let st2 : ScanSt := {st with nSockOpened := st.nSockOpened + 1}
  let st3 : ScanSt := {st2 with nProbes := st2.nProbes + 1}
  let st4 :=
    if code = 0 then
      pushLog log_callback (openMsgEs ip p)
        {st3 with open_ports := st3.open_ports ++ [(ip, p)]}
    else
      pushLog (verbose && log_callback) (closedMsgEs ip p)
        {st3 with nClosedProbes := st3.nClosedProbes + 1}
  {st4 with nSockClosed := st4.nSockClosed + 1}

/-- The inner port loop of the Spanish copy. -/
def portLoopEs (verbose log_callback result_callback : Bool) (stop : Nat → Bool)
    (probe : String → Nat → ProbeRes) (ip : String) :
    List Nat → ScanSt → ScanSt × Flow
  | [], st => (st, Flow.normal)
  | p :: ps, st =>
    if stop st.nChecks then
      (cancelExitEs log_callback result_callback st, Flow.stopped)
    else
      match probe ip p with
      | ProbeRes.exn m => (raiseSt (checkSt st), Flow.raised m)
      | ProbeRes.ret code =>
        portLoopEs verbose log_callback result_callback stop probe ip ps
          (probeStEs verbose log_callback ip p code (checkSt st))

/-- The outer address loop of the Spanish copy. -/
def ipLoopEs (verbose log_callback result_callback : Bool) (stop : Nat → Bool)
    (probe : String → Nat → ProbeRes) (ports : List Nat) :
    List Nat → ScanSt → ScanSt × Flow
  | [], st => (st, Flow.normal)
  | a :: as, st =>
    if stop st.nChecks then
      (cancelExitEs log_callback result_callback st, Flow.stopped)
    else
      match portLoopEs verbose log_callback result_callback stop probe (ipStr a)
          ports (checkSt st) with
      | (st2, Flow.normal) =>
        ipLoopEs verbose log_callback result_callback stop probe ports as st2
      | (st2, f) => (st2, f)

/-- `scan_ips` of the Spanish copy (`src/unnamed/part_000`, lines 79-149):
identical to `scan_ips` except for the text of its log messages. -/
def scan_ips_es (start_ip end_ip : Except String Nat) (start_port end_port : Nat)
    (verbose : Bool) (stop : Nat → Bool) (probe : String → Nat → ProbeRes)
    (log_callback result_callback : Bool) : ScanRun :=
  match start_ip with
  | Except.error m =>
    ⟨pushResult result_callback [] (pushLog log_callback (errMsgEs m) st0), ExitKind.fault m⟩
  | Except.ok s =>
    match end_ip with
    | Except.error m =>
      ⟨pushResult result_callback [] (pushLog log_callback (errMsgEs m) st0), ExitKind.fault m⟩
    | Except.ok e =>
      if s > e then
        ⟨pushResult result_callback [] (pushLog log_callback usageMsgEs st0), ExitKind.usageError⟩
      else
        match ipLoopEs verbose log_callback result_callback stop probe
            (portList start_port end_port) (List.range' s (e + 1 - s)) st0 with
        | (st, Flow.normal) =>
          ⟨pushResult result_callback st.open_ports st, ExitKind.completed⟩
        | (st, Flow.stopped) => ⟨st, ExitKind.stopped⟩
        | (st, Flow.raised m) =>
          ⟨pushResult result_callback [] (pushLog log_callback (errMsgEs m) st), ExitKind.fault m⟩

theorem cancelExitEs_logs_length (lc rc : Bool) (st : ScanSt) :
    (cancelExitEs lc rc st).logs.length = st.logs.length + cond lc 1 0 := by
  cases lc <;> simp [cancelExitEs]

theorem probeStEs_logs_length (v lc : Bool) (ip : String) (p code : Nat) (st : ScanSt) :
    (probeStEs v lc ip p code st).logs.length =
      st.logs.length + (if code = 0 then cond lc 1 0 else cond (v && lc) 1 0) := by
  unfold probeStEs
  by_cases hc : code = 0 <;> simp [hc, pushLog_logs_length]

@[simp] theorem cancelExitEs_nChecks (lc rc : Bool) (st : ScanSt) :
    (cancelExitEs lc rc st).nChecks = st.nChecks + 1 := by
  simp [cancelExitEs]

@[simp] theorem cancelExitEs_nProbes (lc rc : Bool) (st : ScanSt) :
    (cancelExitEs lc rc st).nProbes = st.nProbes := by
  simp [cancelExitEs]

@[simp] theorem cancelExitEs_nSockOpened (lc rc : Bool) (st : ScanSt) :
    (cancelExitEs lc rc st).nSockOpened = st.nSockOpened := by
  simp [cancelExitEs]

@[simp] theorem cancelExitEs_nSockClosed (lc rc : Bool) (st : ScanSt) :
    (cancelExitEs lc rc st).nSockClosed = st.nSockClosed := by
  simp [cancelExitEs]

@[simp] theorem cancelExitEs_nClosedProbes (lc rc : Bool) (st : ScanSt) :
    (cancelExitEs lc rc st).nClosedProbes = st.nClosedProbes := by
  simp [cancelExitEs]

@[simp] theorem cancelExitEs_open_ports (lc rc : Bool) (st : ScanSt) :
    (cancelExitEs lc rc st).open_ports = st.open_ports := by
  simp [cancelExitEs]

theorem cancelExitEs_resultCalls (lc rc : Bool) (st : ScanSt) :
    (cancelExitEs lc rc st).resultCalls =
      st.resultCalls ++ (if rc then [st.open_ports] else []) := by
  cases rc <;> simp [cancelExitEs]

@[simp] theorem probeStEs_nChecks (v lc : Bool) (ip : String) (p code : Nat) (st : ScanSt) :
    (probeStEs v lc ip p code st).nChecks = st.nChecks := by
  unfold probeStEs; split <;> simp

@[simp] theorem probeStEs_nProbes (v lc : Bool) (ip : String) (p code : Nat) (st : ScanSt) :
    (probeStEs v lc ip p code st).nProbes = st.nProbes + 1 := by
  unfold probeStEs; split <;> simp

@[simp] theorem probeStEs_nSockOpened (v lc : Bool) (ip : String) (p code : Nat) (st : ScanSt) :
    (probeStEs v lc ip p code st).nSockOpened = st.nSockOpened + 1 := by
  unfold probeStEs; split <;> simp

@[simp] theorem probeStEs_nSockClosed (v lc : Bool) (ip : String) (p code : Nat) (st : ScanSt) :
    (probeStEs v lc ip p code st).nSockClosed = st.nSockClosed + 1 := by
  unfold probeStEs; split <;> simp

@[simp] theorem probeStEs_resultCalls (v lc : Bool) (ip : String) (p code : Nat) (st : ScanSt) :
    (probeStEs v lc ip p code st).resultCalls = st.resultCalls := by
  unfold probeStEs; split <;> simp

theorem probeStEs_nClosedProbes (v lc : Bool) (ip : String) (p code : Nat) (st : ScanSt) :
    (probeStEs v lc ip p code st).nClosedProbes =
      st.nClosedProbes + (if code = 0 then 0 else 1) := by
  unfold probeStEs; split <;> simp

theorem probeStEs_open_ports (v lc : Bool) (ip : String) (p code : Nat) (st : ScanSt) :
    (probeStEs v lc ip p code st).open_ports =
      st.open_ports ++ (if code = 0 then [(ip, p)] else []) := by
  unfold probeStEs; split <;> simp

theorem eqNoLogs_cancelExitEs (lc lc2 rc : Bool) {a b : ScanSt} (h : eqNoLogs a b) :
    eqNoLogs (cancelExit lc rc a) (cancelExitEs lc2 rc b) := by
  obtain ⟨h1, h2, h3, h4, h5, h6, h7⟩ := h
  exact ⟨by simp [h1], by simp [h2], by simp [h3], by simp [h4], by simp [h5],
    by simp [cancelExit_resultCalls, cancelExitEs_resultCalls, h6, h7], by simp [h7]⟩

theorem eqNoLogs_probeStEs (v lc lc2 : Bool) (ip : String) (p code : Nat)
    {a b : ScanSt} (h : eqNoLogs a b) :
    eqNoLogs (probeSt v lc ip p code (checkSt a)) (probeStEs v lc2 ip p code (checkSt b)) := by
  obtain ⟨h1, h2, h3, h4, h5, h6, h7⟩ := h
  exact ⟨by simp [h1], by simp [h2], by simp [h3], by simp [h4],
    by simp [probeSt_nClosedProbes, probeStEs_nClosedProbes, h5], by simp [h6],
    by simp [probeSt_open_ports, probeStEs_open_ports, h7]⟩

/-- The English and Spanish port loops are in lockstep: same control flow,
same non-log state, same number of log lines. -/
theorem portLoop_es_rel (v lc rc : Bool) (stop : Nat → Bool)
    (probe : String → Nat → ProbeRes) (ip : String) :
    ∀ (ps : List Nat) (a b : ScanSt), eqNoLogs a b → a.logs.length = b.logs.length →
      (portLoop v lc rc stop probe ip ps a).2 =
        (portLoopEs v lc rc stop probe ip ps b).2 ∧
      eqNoLogs (portLoop v lc rc stop probe ip ps a).1
        (portLoopEs v lc rc stop probe ip ps b).1 ∧
      (portLoop v lc rc stop probe ip ps a).1.logs.length =
        (portLoopEs v lc rc stop probe ip ps b).1.logs.length := by
  intro ps
  induction ps with
  | nil =>
    intro a b h hl
    exact ⟨rfl, by simpa [portLoop, portLoopEs] using h, by simpa [portLoop, portLoopEs] using hl⟩
  | cons p ps ih =>
    intro a b h hl
    have hchk : a.nChecks = b.nChecks := h.1
    by_cases hs : stop a.nChecks
    · have hsb : stop b.nChecks := by rw [← hchk]; exact hs
      refine ⟨by simp [portLoop, portLoopEs, hs, hsb], ?_, ?_⟩
      · simpa [portLoop, portLoopEs, hs, hsb] using eqNoLogs_cancelExitEs lc lc rc h
      · simp [portLoop, portLoopEs, hs, hsb, cancelExit_logs_length, cancelExitEs_logs_length, hl]
    · have hsb : ¬ stop b.nChecks := by rw [← hchk]; exact hs
      cases hp : probe ip p with
      | exn m =>
        have hrel := eqNoLogs_raiseSt h
        refine ⟨by simp [portLoop, portLoopEs, hs, hsb, hp],
          by simpa [portLoop, portLoopEs, hs, hsb, hp] using hrel,
          by simpa [portLoop, portLoopEs, hs, hsb, hp] using hl⟩
      | ret code =>
        have hunfa : portLoop v lc rc stop probe ip (p :: ps) a =
            portLoop v lc rc stop probe ip ps (probeSt v lc ip p code (checkSt a)) := by
          simp [portLoop, hs, hp]
        have hunfb : portLoopEs v lc rc stop probe ip (p :: ps) b =
            portLoopEs v lc rc stop probe ip ps (probeStEs v lc ip p code (checkSt b)) := by
          simp [portLoopEs, hsb, hp]
        rw [hunfa, hunfb]
        refine ih (probeSt v lc ip p code (checkSt a)) (probeStEs v lc ip p code (checkSt b))
          (eqNoLogs_probeStEs v lc lc ip p code h) ?_
        rw [probeSt_logs_length, probeStEs_logs_length]
        simp [hl]

/-- The English and Spanish address loops are in lockstep. -/
theorem ipLoop_es_rel (v lc rc : Bool) (stop : Nat → Bool)
    (probe : String → Nat → ProbeRes) (ports : List Nat) :
    ∀ (as : List Nat) (a b : ScanSt), eqNoLogs a b → a.logs.length = b.logs.length →
      (ipLoop v lc rc stop probe ports as a).2 =
        (ipLoopEs v lc rc stop probe ports as b).2 ∧
      eqNoLogs (ipLoop v lc rc stop probe ports as a).1
        (ipLoopEs v lc rc stop probe ports as b).1 ∧
      (ipLoop v lc rc stop probe ports as a).1.logs.length =
        (ipLoopEs v lc rc stop probe ports as b).1.logs.length := by
  intro as
  induction as with
  | nil =>
    intro a b h hl
    exact ⟨rfl, by simpa [ipLoop, ipLoopEs] using h, by simpa [ipLoop, ipLoopEs] using hl⟩
  | cons x as ih =>
    intro a b h hl
    have hchk : a.nChecks = b.nChecks := h.1
    by_cases hs : stop a.nChecks
    · have hsb : stop b.nChecks := by rw [← hchk]; exact hs
      refine ⟨by simp [ipLoop, ipLoopEs, hs, hsb], ?_, ?_⟩
      · simpa [ipLoop, ipLoopEs, hs, hsb] using eqNoLogs_cancelExitEs lc lc rc h
      · simp [ipLoop, ipLoopEs, hs, hsb, cancelExit_logs_length, cancelExitEs_logs_length, hl]
    · have hsb : ¬ stop b.nChecks := by rw [← hchk]; exact hs
      have hchkrel : eqNoLogs (checkSt a) (checkSt b) := by
        obtain ⟨h1, h2, h3, h4, h5, h6, h7⟩ := h
        exact ⟨by simp [h1], by simp [h2], by simp [h3], by simp [h4], by simp [h5],
          by simp [h6], by simp [h7]⟩
      rcases portLoop_es_rel v lc rc stop probe (ipStr x) ports (checkSt a) (checkSt b)
        hchkrel (by simpa using hl) with ⟨q1, q2, q3⟩
      rcases hPa : portLoop v lc rc stop probe (ipStr x) ports (checkSt a) with ⟨sa, fa⟩
      rcases hPb : portLoopEs v lc rc stop probe (ipStr x) ports (checkSt b) with ⟨sb, fb⟩
      rw [hPa, hPb] at q1 q2 q3
      simp only at q1 q2 q3
      subst q1
      cases fa with
      | normal =>
        have hunfa : ipLoop v lc rc stop probe ports (x :: as) a =
            ipLoop v lc rc stop probe ports as sa := by
          simp [ipLoop, hs, hPa]
        have hunfb : ipLoopEs v lc rc stop probe ports (x :: as) b =
            ipLoopEs v lc rc stop probe ports as sb := by
          simp [ipLoopEs, hsb, hPb]
        rw [hunfa, hunfb]
        exact ih sa sb q2 q3
      | stopped =>
        have hunfa : ipLoop v lc rc stop probe ports (x :: as) a = (sa, Flow.stopped) := by
          simp [ipLoop, hs, hPa]
        have hunfb : ipLoopEs v lc rc stop probe ports (x :: as) b = (sb, Flow.stopped) := by
          simp [ipLoopEs, hsb, hPb]
        rw [hunfa, hunfb]
        exact ⟨rfl, q2, q3⟩
      | raised m =>
        have hunfa : ipLoop v lc rc stop probe ports (x :: as) a = (sa, Flow.raised m) := by
          simp [ipLoop, hs, hPa]
        have hunfb : ipLoopEs v lc rc stop probe ports (x :: as) b = (sb, Flow.raised m) := by
          simp [ipLoopEs, hsb, hPb]
        rw [hunfa, hunfb]
        exact ⟨rfl, q2, q3⟩

/-- C1: with a non-None `result_callback`, `scan_ips` invokes it exactly
once per run, on every terminal path — natural completion, cancellation
via the stop event, the `start_ip > end_ip` usage-error path, an
address-parse fault, or a probe fault; no exception escapes: faults are
absorbed by the outer handler (the embedding is a total function and
every branch records exactly one `result_callback` invocation). -/
theorem C1_onDone_exactly_once (start_ip end_ip : Except String Nat)
    (start_port end_port : Nat) (v lc : Bool) (stop : Nat → Bool)
    (probe : String → Nat → ProbeRes) :
    (scan_ips start_ip end_ip start_port end_port v stop probe lc true).resultCalls.length
      = 1 := by
  cases start_ip with
  | error m => simp [scan_ips, st0]
  | ok s =>
    cases end_ip with
    | error m => simp [scan_ips, st0]
    | ok e =>
      by_cases hse : s > e
      · simp [scan_ips, hse, st0]
      · rcases hL : ipLoop v lc true stop probe (portList start_port end_port)
          (List.range' s (e + 1 - s)) st0 with ⟨st, f⟩
        rcases ipLoop_resultCalls v lc stop probe (portList start_port end_port)
          (List.range' s (e + 1 - s)) st0 with ⟨g1, g2⟩
        rw [hL] at g1 g2
        cases f with
        | normal =>
          have hrc : st.resultCalls = [] := by simpa [st0] using g2 (by simp)
          simp [scan_ips, hse, hL, hrc]
        | stopped =>
          have hrc : st.resultCalls = [] ++ [st.open_ports] := by simpa [st0] using g1 rfl
          simp [scan_ips, hse, hL, hrc]
        | raised m =>
          have hrc : st.resultCalls = [] := by simpa [st0] using g2 (by simp)
          simp [scan_ips, hse, hL, hrc]

/-- C4: for `start_ip ≤ end_ip` and `start_port ≤ end_port`, with no
cancellation and no probe fault, `scan_ips` attempts exactly
`(end_ip − start_ip + 1) × (end_port − start_port + 1)` probes. -/
theorem C4_probe_count (s e start_port end_port : Nat) (v lc rc : Bool)
    (stop : Nat → Bool) (probe : String → Nat → ProbeRes)
    (hse : s ≤ e) (hpe : start_port ≤ end_port)
    (hstop : ∀ k, stop k = false) (hexn : noExn probe) :
    (scan_ips (Except.ok s) (Except.ok e) start_port end_port v stop probe lc rc).nProbes
      = (e - s + 1) * (end_port - start_port + 1) := by
  have hgt : ¬ s > e := by omega
  rcases hL : ipLoop v lc rc stop probe (portList start_port end_port)
    (List.range' s (e + 1 - s)) st0 with ⟨st, f⟩
  rcases ipLoop_count v lc rc stop probe (portList start_port end_port) hstop hexn
    (List.range' s (e + 1 - s)) st0 with ⟨g1, g2, _⟩
  rw [hL] at g1 g2
  simp only at g1
  subst g1
  have hlen : (List.range' s (e + 1 - s)).length = e + 1 - s := List.length_range' ..
  have hplen : (portList start_port end_port).length = end_port + 1 - start_port := by
    simp [portList]
  rw [hlen, hplen] at g2
  have hst : st.nProbes = (e + 1 - s) * (end_port + 1 - start_port) := by
    simpa [st0] using g2
  have h1 : e + 1 - s = e - s + 1 := by omega
  have h2 : end_port + 1 - start_port = end_port - start_port + 1 := by omega
  rw [h1, h2] at hst
  simp [scan_ips, hgt, hL, hst]

/-- C4 witness: a range collapsed to a single address and a single port
performs exactly one probe. -/
theorem C4_probe_count_witness :
    (scan_ips (Except.ok 5) (Except.ok 5) 80 80 false (fun _ => false)
      (fun _ _ => ProbeRes.ret 1) true true).nProbes = (5 - 5 + 1) * (80 - 80 + 1) :=
  C4_probe_count 5 5 80 80 false true true (fun _ => false) (fun _ _ => ProbeRes.ret 1)
    (by decide) (by decide) (fun _ => rfl) (fun _ _ _ h => ProbeRes.noConfusion h)

/-- C6: when the start address exceeds the end address, `scan_ips`
performs zero probes, emits exactly one log line (the ordering-violation
message), calls `result_callback` with the empty list and returns without
raising (the usage-error exit, not the fault exit). -/
theorem C6_usage_error (s e start_port end_port : Nat) (v : Bool)
    (stop : Nat → Bool) (probe : String → Nat → ProbeRes) (h : e < s) :
    (scan_ips (Except.ok s) (Except.ok e) start_port end_port v stop probe true true).nProbes
        = 0 ∧
    (scan_ips (Except.ok s) (Except.ok e) start_port end_port v stop probe true true).logs
        = [usageMsg] ∧
    (scan_ips (Except.ok s) (Except.ok e) start_port end_port v stop probe true
        true).resultCalls = [[]] ∧
    (scan_ips (Except.ok s) (Except.ok e) start_port end_port v stop probe true true).exit
        = ExitKind.usageError := by
  have hgt : s > e := h
  refine ⟨?_, ?_, ?_, ?_⟩ <;> simp [scan_ips, hgt, st0]

/-- C6 witness: the usage-error path at the concrete range 1..0. -/
theorem C6_usage_error_witness :
    (scan_ips (Except.ok 1) (Except.ok 0) 80 80 false (fun _ => false)
        (fun _ _ => ProbeRes.ret 1) true true).nProbes = 0 ∧
    (scan_ips (Except.ok 1) (Except.ok 0) 80 80 false (fun _ => false)
        (fun _ _ => ProbeRes.ret 1) true true).logs = [usageMsg] ∧
    (scan_ips (Except.ok 1) (Except.ok 0) 80 80 false (fun _ => false)
        (fun _ _ => ProbeRes.ret 1) true true).resultCalls = [[]] ∧
    (scan_ips (Except.ok 1) (Except.ok 0) 80 80 false (fun _ => false)
        (fun _ _ => ProbeRes.ret 1) true true).exit = ExitKind.usageError :=
  C6_usage_error 1 0 80 80 false (fun _ => false) (fun _ _ => ProbeRes.ret 1) (by decide)

/-- C9: when `start_port > end_port` (and the address range is valid and
never cancelled), the inner port loop is empty for every address: the run
iterates all addresses, performs zero probes, reports no error (no log
line at all) and calls `result_callback` once with the empty list, as on
normal completion. -/
theorem C9_empty_port_range (s e start_port end_port : Nat) (v : Bool)
    (stop : Nat → Bool) (probe : String → Nat → ProbeRes)
    (hse : s ≤ e) (hpe : end_port < start_port) (hstop : ∀ k, stop k = false) :
    (scan_ips (Except.ok s) (Except.ok e) start_port end_port v stop probe true true).nProbes
        = 0 ∧
    (scan_ips (Except.ok s) (Except.ok e) start_port end_port v stop probe true true).logs
        = [] ∧
    (scan_ips (Except.ok s) (Except.ok e) start_port end_port v stop probe true
        true).resultCalls = [[]] ∧
    (scan_ips (Except.ok s) (Except.ok e) start_port end_port v stop probe true true).exit
        = ExitKind.completed := by
  have hgt : ¬ s > e := by omega
  have hnil : portList start_port end_port = [] := by
    have h0 : end_port + 1 - start_port = 0 := by omega
    simp [portList, h0]
  have hL := ipLoop_nilPorts v true true stop probe hstop
    (List.range' s (e + 1 - s)) st0
  refine ⟨?_, ?_, ?_, ?_⟩ <;> simp [scan_ips, hgt, hnil, hL] <;> simp [st0]

/-- C9 witness: one address, port range 81..80, no cancellation. -/
theorem C9_empty_port_range_witness :
    (scan_ips (Except.ok 0) (Except.ok 0) 81 80 false (fun _ => false)
        (fun _ _ => ProbeRes.ret 1) true true).nProbes = 0 ∧
    (scan_ips (Except.ok 0) (Except.ok 0) 81 80 false (fun _ => false)
        (fun _ _ => ProbeRes.ret 1) true true).logs = [] ∧
    (scan_ips (Except.ok 0) (Except.ok 0) 81 80 false (fun _ => false)
        (fun _ _ => ProbeRes.ret 1) true true).resultCalls = [[]] ∧
    (scan_ips (Except.ok 0) (Except.ok 0) 81 80 false (fun _ => false)
        (fun _ _ => ProbeRes.ret 1) true true).exit = ExitKind.completed :=
  C9_empty_port_range 0 0 81 80 false (fun _ => false) (fun _ _ => ProbeRes.ret 1)
    (by decide) (by decide) (fun _ => rfl)

/-- C2 counterexample: one address (0.0.0.0), ports 80..82; port 80 is
Open, port 81's probe raises, port 82 would return Closed. The claim says
the run logs the error, skips the pair, and continues with port 82
without discarding the Open result for port 80 (so 3 probes and a final
result containing (0.0.0.0, 80)). The code instead lets the exception
reach the outer handler: only 2 probes run and `result_callback` gets the
empty list, discarding the accumulated Open result. -/
theorem C2_counterexample :
    (scan_ips (Except.ok 0) (Except.ok 0) 80 82 false (fun _ => false)
        (fun _ p => if p = 80 then ProbeRes.ret 0
          else if p = 81 then ProbeRes.exn "boom" else ProbeRes.ret 1)
        true true).resultCalls = [[]] ∧
    (scan_ips (Except.ok 0) (Except.ok 0) 80 82 false (fun _ => false)
        (fun _ p => if p = 80 then ProbeRes.ret 0
          else if p = 81 then ProbeRes.exn "boom" else ProbeRes.ret 1)
        true true).nProbes = 2 ∧
    ¬ ((ipStr 0, 80) ∈ (scan_ips (Except.ok 0) (Except.ok 0) 80 82 false (fun _ => false)
        (fun _ p => if p = 80 then ProbeRes.ret 0
          else if p = 81 then ProbeRes.exn "boom" else ProbeRes.ret 1)
        true true).resultCalls.getD 0 []) := by
  refine ⟨by decide, by decide, by decide⟩

/-- C2 amended: a per-pair probe failure other than refusal or timeout
(an exception from `connect_ex`) is caught only by the top-level handler:
`scan_ips` logs one line describing the error (as its last log line),
calls `result_callback` with the empty list — discarding any Open results
accumulated so far — performs no further probes, and returns without
raising. -/
theorem C2_probe_fault_aborts (s e start_port end_port : Nat) (v : Bool)
    (stop : Nat → Bool) (probe : String → Nat → ProbeRes) (m : String)
    (hf : (scan_ips (Except.ok s) (Except.ok e) start_port end_port v stop probe true
      true).exit = ExitKind.fault m) :
    (scan_ips (Except.ok s) (Except.ok e) start_port end_port v stop probe true
        true).resultCalls = [[]] ∧
    (scan_ips (Except.ok s) (Except.ok e) start_port end_port v stop probe true
        true).logs.getLast? = some (errMsg m) := by
  by_cases hse : s > e
  · simp [scan_ips, hse] at hf
  · rcases hL : ipLoop v true true stop probe (portList start_port end_port)
      (List.range' s (e + 1 - s)) st0 with ⟨st, f⟩
    rcases ipLoop_resultCalls v true stop probe (portList start_port end_port)
      (List.range' s (e + 1 - s)) st0 with ⟨_, g2⟩
    rw [hL] at g2
    cases f with
    | normal => simp [scan_ips, hse, hL] at hf
    | stopped => simp [scan_ips, hse, hL] at hf
    | raised m2 =>
      have hm : m2 = m := by
        have := hf
        simp [scan_ips, hse, hL] at this
        exact this
      subst hm
      have hrc : st.resultCalls = [] := by simpa [st0] using g2 (by simp)
      constructor
      · simp [scan_ips, hse, hL, hrc]
      · simp [scan_ips, hse, hL, List.getLast?_concat]

/-- C2 amended witness: a run whose only probe raises ends in the fault
exit with an empty result and the error line as its last log line. -/
theorem C2_probe_fault_aborts_witness :
    (scan_ips (Except.ok 0) (Except.ok 0) 80 80 false (fun _ => false)
        (fun _ _ => ProbeRes.exn "boom") true true).resultCalls = [[]] ∧
    (scan_ips (Except.ok 0) (Except.ok 0) 80 80 false (fun _ => false)
        (fun _ _ => ProbeRes.exn "boom") true true).logs.getLast? = some (errMsg "boom") :=
  C2_probe_fault_aborts 0 0 80 80 false (fun _ => false) (fun _ _ => ProbeRes.exn "boom")
    "boom" (by decide)

/-- Whether a run ended in the exception-handler exit. -/
def isFaultExit : ExitKind → Bool
  | ExitKind.fault _ => true
  | _ => false

/-- C7 counterexample: a run whose single probe raises opens one socket
and closes none — `sock.close()` is skipped on the Error outcome, so the
socket is not released after classification, contrary to the claim's
"on every outcome". -/
theorem C7_counterexample :
    (scan_ips (Except.ok 0) (Except.ok 0) 80 80 false (fun _ => false)
        (fun _ _ => ProbeRes.exn "err") true true).nSockOpened = 1 ∧
    (scan_ips (Except.ok 0) (Except.ok 0) 80 80 false (fun _ => false)
        (fun _ _ => ProbeRes.exn "err") true true).nSockClosed = 0 := by
  refine ⟨by decide, by decide⟩

/-- C7 amended: every probe opens exactly one socket, and the socket is
closed immediately after classification for the Open and Closed outcomes;
a probe whose `connect_ex` raises leaks its socket (the run then
terminates through the handler, so exactly one socket per run can leak,
and only on the fault exit). -/
theorem C7_socket_accounting (start_ip end_ip : Except String Nat)
    (start_port end_port : Nat) (v lc rc : Bool) (stop : Nat → Bool)
    (probe : String → Nat → ProbeRes) :
    (scan_ips start_ip end_ip start_port end_port v stop probe lc rc).nSockOpened =
      (scan_ips start_ip end_ip start_port end_port v stop probe lc rc).nProbes ∧
    (scan_ips start_ip end_ip start_port end_port v stop probe lc rc).nSockClosed =
      (if isFaultExit (scan_ips start_ip end_ip start_port end_port v stop probe lc rc).exit
        then (scan_ips start_ip end_ip start_port end_port v stop probe lc rc).nProbes - 1
        else (scan_ips start_ip end_ip start_port end_port v stop probe lc rc).nProbes) := by
  cases start_ip with
  | error m => refine ⟨?_, ?_⟩ <;> simp [scan_ips, st0, isFaultExit]
  | ok s =>
    cases end_ip with
    | error m => refine ⟨?_, ?_⟩ <;> simp [scan_ips, st0, isFaultExit]
    | ok e =>
      by_cases hse : s > e
      · refine ⟨?_, ?_⟩ <;> simp [scan_ips, hse, st0, isFaultExit]
      · rcases hL : ipLoop v lc rc stop probe (portList start_port end_port)
          (List.range' s (e + 1 - s)) st0 with ⟨st, f⟩
        rcases ipLoop_sockets v lc rc stop probe (portList start_port end_port)
          (List.range' s (e + 1 - s)) st0 with ⟨g1, g2, g3⟩
        rw [hL] at g1 g2 g3
        cases f with
        | normal =>
          have ho : st.nSockOpened = st.nProbes := by simpa [st0] using g1
          have hc : st.nSockClosed = st.nProbes := by simpa [st0] using g2 (by simp)
          refine ⟨?_, ?_⟩ <;> simp [scan_ips, hse, hL, isFaultExit, ho, hc]
        | stopped =>
          have ho : st.nSockOpened = st.nProbes := by simpa [st0] using g1
          have hc : st.nSockClosed = st.nProbes := by simpa [st0] using g2 (by simp)
          refine ⟨?_, ?_⟩ <;> simp [scan_ips, hse, hL, isFaultExit, ho, hc]
        | raised m =>
          have ho : st.nSockOpened = st.nProbes := by simpa [st0] using g1
          have hc : st.nSockClosed + 1 = st.nProbes := by simpa [st0] using g3 m rfl
          refine ⟨?_, ?_⟩ <;> simp [scan_ips, hse, hL, isFaultExit, ho]
          omega

/-- C5: cancellation. (i) Whenever one of the per-address or per-port
checks of the stop flag terminates the run (the `stopped` exit), the run
has emitted exactly one cancellation line — as its final log line, with
no earlier occurrence — and `result_callback` received exactly the
results accumulated so far. (ii) If the flag is already set at the first
check, zero probes execute and the outcome is empty. -/
theorem C5_cancellation (s e start_port end_port : Nat) (v : Bool)
    (stop : Nat → Bool) (probe : String → Nat → ProbeRes) :
    ((scan_ips (Except.ok s) (Except.ok e) start_port end_port v stop probe true true).exit
        = ExitKind.stopped →
      (scan_ips (Except.ok s) (Except.ok e) start_port end_port v stop probe true
          true).logs.getLast? = some stopMsg ∧
      stopMsg ∉ (scan_ips (Except.ok s) (Except.ok e) start_port end_port v stop probe true
          true).logs.dropLast ∧
      (scan_ips (Except.ok s) (Except.ok e) start_port end_port v stop probe true
          true).resultCalls =
        [(scan_ips (Except.ok s) (Except.ok e) start_port end_port v stop probe true
          true).open_ports]) ∧
    (stop 0 = true → s ≤ e →
      (scan_ips (Except.ok s) (Except.ok e) start_port end_port v stop probe true
          true).nProbes = 0 ∧
      (scan_ips (Except.ok s) (Except.ok e) start_port end_port v stop probe true
          true).open_ports = [] ∧
      (scan_ips (Except.ok s) (Except.ok e) start_port end_port v stop probe true
          true).logs = [stopMsg] ∧
      (scan_ips (Except.ok s) (Except.ok e) start_port end_port v stop probe true
          true).resultCalls = [[]] ∧
      (scan_ips (Except.ok s) (Except.ok e) start_port end_port v stop probe true
          true).exit = ExitKind.stopped) := by
  constructor
  · intro hst
    by_cases hse : s > e
    · simp [scan_ips, hse] at hst
    · rcases hL : ipLoop v true true stop probe (portList start_port end_port)
        (List.range' s (e + 1 - s)) st0 with ⟨st, f⟩
      rcases ipLoop_resultCalls v true stop probe (portList start_port end_port)
        (List.range' s (e + 1 - s)) st0 with ⟨g1, _⟩
      rcases ipLoop_stopLog v true stop probe (portList start_port end_port)
        (List.range' s (e + 1 - s)) st0 (by simp [st0]) with ⟨q1, _⟩
      rw [hL] at g1 q1
      cases f with
      | normal => simp [scan_ips, hse, hL] at hst
      | stopped =>
        rcases q1 rfl with ⟨l, hlogs, hmem⟩
        have hlogs2 : st.logs = l ++ [stopMsg] := by simpa using hlogs
        have hrc : st.resultCalls = [st.open_ports] := by simpa [st0] using g1 rfl
        refine ⟨?_, ?_, ?_⟩ <;>
          simp [scan_ips, hse, hL, hlogs2, hrc, List.getLast?_concat,
            List.dropLast_concat, hmem]
      | raised m => simp [scan_ips, hse, hL] at hst
  · intro h0 hse2
    have hgt : ¬ s > e := by omega
    have hrange : List.range' s (e + 1 - s) = s :: List.range' (s + 1) (e - s) := by
      have hn : e + 1 - s = (e - s) + 1 := by omega
      rw [hn]
      exact List.range'_succ s (e - s) 1
    have hL2 : ipLoop v true true stop probe (portList start_port end_port)
        (s :: List.range' (s + 1) (e - s)) st0 =
          (cancelExit true true st0, Flow.stopped) := by
      have hck : st0.nChecks = 0 := rfl
      simp [ipLoop, hck, h0]
    refine ⟨?_, ?_, ?_, ?_, ?_⟩ <;> simp [scan_ips, hgt, hrange, hL2] <;>
      simp [cancelExit, checkSt, st0]

/-- C5 witness: flag set before the run starts on a one-address,
one-port range. -/
theorem C5_cancellation_witness :
    ((scan_ips (Except.ok 0) (Except.ok 0) 80 80 false (fun _ => true)
        (fun _ _ => ProbeRes.ret 1) true true).logs.getLast? = some stopMsg ∧
      stopMsg ∉ (scan_ips (Except.ok 0) (Except.ok 0) 80 80 false (fun _ => true)
        (fun _ _ => ProbeRes.ret 1) true true).logs.dropLast ∧
      (scan_ips (Except.ok 0) (Except.ok 0) 80 80 false (fun _ => true)
        (fun _ _ => ProbeRes.ret 1) true true).resultCalls =
        [(scan_ips (Except.ok 0) (Except.ok 0) 80 80 false (fun _ => true)
          (fun _ _ => ProbeRes.ret 1) true true).open_ports]) ∧
    ((scan_ips (Except.ok 0) (Except.ok 0) 80 80 false (fun _ => true)
        (fun _ _ => ProbeRes.ret 1) true true).nProbes = 0 ∧
      (scan_ips (Except.ok 0) (Except.ok 0) 80 80 false (fun _ => true)
        (fun _ _ => ProbeRes.ret 1) true true).open_ports = [] ∧
      (scan_ips (Except.ok 0) (Except.ok 0) 80 80 false (fun _ => true)
        (fun _ _ => ProbeRes.ret 1) true true).logs = [stopMsg] ∧
      (scan_ips (Except.ok 0) (Except.ok 0) 80 80 false (fun _ => true)
        (fun _ _ => ProbeRes.ret 1) true true).resultCalls = [[]] ∧
      (scan_ips (Except.ok 0) (Except.ok 0) 80 80 false (fun _ => true)
        (fun _ _ => ProbeRes.ret 1) true true).exit = ExitKind.stopped) :=
  ⟨(C5_cancellation 0 0 80 80 false (fun _ => true) (fun _ _ => ProbeRes.ret 1)).1
      (by decide),
    (C5_cancellation 0 0 80 80 false (fun _ => true) (fun _ _ => ProbeRes.ret 1)).2
      rfl (by decide)⟩

/-- The Open results of a prefix of a port list form a prefix of the Open
results of the whole list. -/
theorem openFilter_take (probe : String → Nat → ProbeRes) (ip : String) :
    ∀ (ps : List Nat) (k : Nat),
      ∃ m, openFilter probe ip (ps.take k) = (openFilter probe ip ps).take m ∧
        m ≤ (openFilter probe ip ps).length := by
  intro ps
  induction ps with
  | nil => intro k; exact ⟨0, by simp [openFilter], by simp⟩
  | cons p ps ih =>
    intro k
    cases k with
    | zero => exact ⟨0, by simp [openFilter], by simp⟩
    | succ k =>
      rcases ih k with ⟨m, hm, hle⟩
      by_cases hp : probe ip p = ProbeRes.ret 0
      · refine ⟨m + 1, ?_, ?_⟩
        · simpa [openFilter, hp] using hm
        · have hlen : (openFilter probe ip (p :: ps)).length =
              (openFilter probe ip ps).length + 1 := by
            simp [openFilter, hp]
          omega
      · refine ⟨m, ?_, ?_⟩
        · simpa [openFilter, hp] using hm
        · simpa [openFilter, hp] using hle

/-- Whatever way the port loop exits, the Open results it appended are the
Open results of a prefix of its port list (the whole list when it fell
through normally). -/
theorem portLoop_open_take (v lc rc : Bool) (stop : Nat → Bool)
    (probe : String → Nat → ProbeRes) (ip : String) :
    ∀ (ps : List Nat) (st : ScanSt),
      ∃ k, (portLoop v lc rc stop probe ip ps st).1.open_ports =
          st.open_ports ++ openFilter probe ip (ps.take k) ∧
        ((portLoop v lc rc stop probe ip ps st).2 = Flow.normal → ps.take k = ps) := by
  intro ps
  induction ps with
  | nil =>
    intro st
    exact ⟨0, by simp [portLoop, openFilter], fun _ => rfl⟩
  | cons p ps ih =>
    intro st
    by_cases hs : stop st.nChecks
    · refine ⟨0, by simp [portLoop, hs, openFilter], fun h => ?_⟩
      simp [portLoop, hs] at h
    · cases hp : probe ip p with
      | exn m =>
        refine ⟨0, by simp [portLoop, hs, hp, openFilter], fun h => ?_⟩
        simp [portLoop, hs, hp] at h
      | ret code =>
        have hunf : portLoop v lc rc stop probe ip (p :: ps) st =
            portLoop v lc rc stop probe ip ps (probeSt v lc ip p code (checkSt st)) := by
          simp [portLoop, hs, hp]
        rcases ih (probeSt v lc ip p code (checkSt st)) with ⟨k, hk, hn⟩
        refine ⟨k + 1, ?_, fun h => ?_⟩
        · rw [hunf, hk, probeSt_open_ports]
          simp only [checkSt_open_ports, List.take_succ_cons, List.append_assoc]
          congr 1
          by_cases hc : code = 0
          · subst hc; simp [openFilter, hp]
          · have hne : probe ip p ≠ ProbeRes.ret 0 := by
              rw [hp]; intro hx; exact hc (by injection hx)
            simp [openFilter, hne, hc]
        · rw [hunf] at h
          simp [List.take_succ_cons, hn h]

/-- Whatever way the address loop exits, the Open results it appended are
a prefix (`take`) of the Open results of the whole scanned range. -/
theorem ipLoop_open_take (v lc rc : Bool) (stop : Nat → Bool)
    (probe : String → Nat → ProbeRes) (ports : List Nat) :
    ∀ (as : List Nat) (st : ScanSt),
      ∃ n, (ipLoop v lc rc stop probe ports as st).1.open_ports =
        st.open_ports ++
          (as.flatMap (fun a => openFilter probe (ipStr a) ports)).take n := by
  intro as
  induction as with
  | nil => intro st; exact ⟨0, by simp [ipLoop]⟩
  | cons a as ih =>
    intro st
    by_cases hs : stop st.nChecks
    · exact ⟨0, by simp [ipLoop, hs]⟩
    · rcases hP : portLoop v lc rc stop probe (ipStr a) ports (checkSt st) with ⟨st2, f⟩
      cases f with
      | normal =>
        have hport := portLoop_open_normal v lc rc stop probe (ipStr a) ports (checkSt st)
        rw [hP] at hport
        have hport2 : st2.open_ports =
            st.open_ports ++ openFilter probe (ipStr a) ports := by
          simpa using hport rfl
        have hunf : ipLoop v lc rc stop probe ports (a :: as) st =
            ipLoop v lc rc stop probe ports as st2 := by
          simp [ipLoop, hs, hP]
        rcases ih st2 with ⟨n, hn⟩
        refine ⟨(openFilter probe (ipStr a) ports).length + n, ?_⟩
        rw [hunf, hn, hport2]
        simp [List.take_append, List.append_assoc]
      | stopped =>
        rcases portLoop_open_take v lc rc stop probe (ipStr a) ports (checkSt st)
          with ⟨k, hk, _⟩
        rw [hP] at hk
        rcases openFilter_take probe (ipStr a) ports k with ⟨m, hm, hmle⟩
        have hunf : ipLoop v lc rc stop probe ports (a :: as) st = (st2, Flow.stopped) := by
          simp [ipLoop, hs, hP]
        refine ⟨m, ?_⟩
        rw [hunf]
        have hk2 : st2.open_ports =
            st.open_ports ++ (openFilter probe (ipStr a) ports).take m := by
          simpa [hm] using hk
        simpa [List.take_append_of_le_length hmle] using hk2
      | raised msg =>
        rcases portLoop_open_take v lc rc stop probe (ipStr a) ports (checkSt st)
          with ⟨k, hk, _⟩
        rw [hP] at hk
        rcases openFilter_take probe (ipStr a) ports k with ⟨m, hm, hmle⟩
        have hunf : ipLoop v lc rc stop probe ports (a :: as) st =
            (st2, Flow.raised msg) := by
          simp [ipLoop, hs, hP]
        refine ⟨m, ?_⟩
        rw [hunf]
        have hk2 : st2.open_ports =
            st.open_ports ++ (openFilter probe (ipStr a) ports).take m := by
          simpa [hm] using hk
        simpa [List.take_append_of_le_length hmle] using hk2

/-- C3: for every completed or cancelled run (with a result callback),
the list passed to `result_callback` is the rendering of a list of
integer (address, port) pairs every one of which was classified Open
(`connect_ex` returned 0) — never Closed or Error — strictly sorted by
address and then port (discovery order); a completed run's list is
exactly the Open-classified pairs of the whole scanned range, in that
order, and a cancelled run's list is a prefix of that same sequence (the
Open pairs discovered before the cancellation). -/
theorem C3_open_only_sorted (s e start_port end_port : Nat) (v lc : Bool)
    (stop : Nat → Bool) (probe : String → Nat → ProbeRes) :
    (((scan_ips (Except.ok s) (Except.ok e) start_port end_port v stop probe lc true).exit
        = ExitKind.completed ∨
      (scan_ips (Except.ok s) (Except.ok e) start_port end_port v stop probe lc true).exit
        = ExitKind.stopped) →
      ∃ l : List (Nat × Nat),
        (scan_ips (Except.ok s) (Except.ok e) start_port end_port v stop probe lc
            true).resultCalls = [renderL l] ∧
        (∀ q ∈ l, probe (ipStr q.1) q.2 = ProbeRes.ret 0) ∧
        l.Pairwise lexLT) ∧
    ((scan_ips (Except.ok s) (Except.ok e) start_port end_port v stop probe lc true).exit
        = ExitKind.completed →
      (scan_ips (Except.ok s) (Except.ok e) start_port end_port v stop probe lc
          true).resultCalls = [openPairs probe s e start_port end_port]) ∧
    (((scan_ips (Except.ok s) (Except.ok e) start_port end_port v stop probe lc true).exit
        = ExitKind.completed ∨
      (scan_ips (Except.ok s) (Except.ok e) start_port end_port v stop probe lc true).exit
        = ExitKind.stopped) →
      ∃ n, (scan_ips (Except.ok s) (Except.ok e) start_port end_port v stop probe lc
          true).resultCalls = [(openPairs probe s e start_port end_port).take n]) := by
  by_cases hse : s > e
  · refine ⟨?_, ?_, ?_⟩
    · rintro (h | h) <;> simp [scan_ips, hse] at h
    · intro h; simp [scan_ips, hse] at h
    · rintro (h | h) <;> simp [scan_ips, hse] at h
  · rcases hL : ipLoop v lc true stop probe (portList start_port end_port)
      (List.range' s (e + 1 - s)) st0 with ⟨st, f⟩
    rcases ipLoop_resultCalls v lc stop probe (portList start_port end_port)
      (List.range' s (e + 1 - s)) st0 with ⟨g1, g2⟩
    rw [hL] at g1 g2
    have hports : (portList start_port end_port).Pairwise (· < ·) := by
      simpa [portList] using
        List.pairwise_lt_range' start_port (end_port + 1 - start_port)
    rcases ipLoop_sorted v lc true stop probe (portList start_port end_port) hports
      (List.range' s (e + 1 - s)) st0 [] (by simp [st0, renderL])
      (fun q hq => absurd hq (List.not_mem_nil q)) List.Pairwise.nil
      (fun q hq => absurd hq (List.not_mem_nil q))
      (List.pairwise_lt_range' s (e + 1 - s)) with ⟨l2, hl1, hl2, hl3⟩
    rw [hL] at hl1
    have hl1b : st.open_ports = renderL l2 := by simpa using hl1
    cases f with
    | normal =>
      have hrc : st.resultCalls = [] := by simpa [st0] using g2 (by simp)
      have hopen := ipLoop_open_normal v lc true stop probe (portList start_port end_port)
        (List.range' s (e + 1 - s)) st0
      rw [hL] at hopen
      have hop : st.open_ports = openPairs probe s e start_port end_port := by
        simpa [st0, openPairs] using hopen rfl
      refine ⟨?_, ?_, ?_⟩
      · intro _
        refine ⟨l2, ?_, hl2, hl3⟩
        simp [scan_ips, hse, hL, hrc, hl1b]
      · intro _
        simp [scan_ips, hse, hL, hrc, hop]
      · intro _
        refine ⟨(openPairs probe s e start_port end_port).length, ?_⟩
        simp [scan_ips, hse, hL, hrc, hop, List.take_length]
    | stopped =>
      have hrc : st.resultCalls = [st.open_ports] := by simpa [st0] using g1 rfl
      rcases ipLoop_open_take v lc true stop probe (portList start_port end_port)
        (List.range' s (e + 1 - s)) st0 with ⟨n, hn⟩
      rw [hL] at hn
      have hop2 : st.open_ports =
          (openPairs probe s e start_port end_port).take n := by
        simpa [st0, openPairs] using hn
      refine ⟨?_, ?_, ?_⟩
      · intro _
        refine ⟨l2, ?_, hl2, hl3⟩
        simp [scan_ips, hse, hL, hrc, hl1b]
      · intro h
        simp [scan_ips, hse, hL] at h
      · intro _
        refine ⟨n, ?_⟩
        simp [scan_ips, hse, hL, hrc, hop2]
    | raised m =>
      refine ⟨?_, ?_, ?_⟩
      · rintro (h | h) <;> simp [scan_ips, hse, hL] at h
      · intro h
        simp [scan_ips, hse, hL] at h
      · rintro (h | h) <;> simp [scan_ips, hse, hL] at h

/-- C3 witness: the spec's own example — scanning 10.0.0.1–10.0.0.2 on
ports 80–81 with everything open yields exactly the four pairs in
address-then-port order. -/
theorem C3_open_only_sorted_witness :
    (∃ l : List (Nat × Nat),
      (scan_ips (Except.ok 167772161) (Except.ok 167772162) 80 81 false (fun _ => false)
          (fun _ _ => ProbeRes.ret 0) true true).resultCalls = [renderL l] ∧
      (∀ q ∈ l,
        (fun (_ : String) (_ : Nat) => ProbeRes.ret 0) (ipStr q.1) q.2 = ProbeRes.ret 0) ∧
      l.Pairwise lexLT) ∧
    (scan_ips (Except.ok 167772161) (Except.ok 167772162) 80 81 false (fun _ => false)
        (fun _ _ => ProbeRes.ret 0) true true).resultCalls =
      [openPairs (fun _ _ => ProbeRes.ret 0) 167772161 167772162 80 81] ∧
    ∃ n, (scan_ips (Except.ok 167772161) (Except.ok 167772162) 80 81 false (fun _ => false)
        (fun _ _ => ProbeRes.ret 0) true true).resultCalls =
      [(openPairs (fun _ _ => ProbeRes.ret 0) 167772161 167772162 80 81).take n] :=
  ⟨(C3_open_only_sorted 167772161 167772162 80 81 false true (fun _ => false)
      (fun _ _ => ProbeRes.ret 0)).1 (Or.inl (by decide)),
    (C3_open_only_sorted 167772161 167772162 80 81 false true (fun _ => false)
      (fun _ _ => ProbeRes.ret 0)).2.1 (by decide),
    (C3_open_only_sorted 167772161 167772162 80 81 false true (fun _ => false)
      (fun _ _ => ProbeRes.ret 0)).2.2 (Or.inl (by decide))⟩

/-- C8: for fixed inputs and probe outcomes, the two runs differing only
in `verbose` take the same exit, call `result_callback` with identical
lists, run the same probes, and the verbose run (with a log callback)
emits exactly one log line more per probe classified Closed —
`nClosedProbes` many in total. -/
theorem C8_verbose_toggle (start_ip end_ip : Except String Nat)
    (start_port end_port : Nat) (stop : Nat → Bool)
    (probe : String → Nat → ProbeRes) (rc : Bool) :
    (scan_ips start_ip end_ip start_port end_port true stop probe true rc).exit =
      (scan_ips start_ip end_ip start_port end_port false stop probe true rc).exit ∧
    (scan_ips start_ip end_ip start_port end_port true stop probe true rc).resultCalls =
      (scan_ips start_ip end_ip start_port end_port false stop probe true rc).resultCalls ∧
    (scan_ips start_ip end_ip start_port end_port true stop probe true rc).nProbes =
      (scan_ips start_ip end_ip start_port end_port false stop probe true rc).nProbes ∧
    (scan_ips start_ip end_ip start_port end_port true stop probe true rc).open_ports =
      (scan_ips start_ip end_ip start_port end_port false stop probe true rc).open_ports ∧
    (scan_ips start_ip end_ip start_port end_port true stop probe true rc).logs.length =
      (scan_ips start_ip end_ip start_port end_port false stop probe true
        rc).logs.length +
      (scan_ips start_ip end_ip start_port end_port true stop probe true
        rc).nClosedProbes := by
  cases start_ip with
  | error m => refine ⟨?_, ?_, ?_, ?_, ?_⟩ <;> simp [scan_ips, st0]
  | ok s =>
    cases end_ip with
    | error m => refine ⟨?_, ?_, ?_, ?_, ?_⟩ <;> simp [scan_ips, st0]
    | ok e =>
      by_cases hse : s > e
      · refine ⟨?_, ?_, ?_, ?_, ?_⟩ <;> simp [scan_ips, hse, st0]
      · rcases ipLoop_verbose rc stop probe (portList start_port end_port)
          (List.range' s (e + 1 - s)) st0 st0
          ⟨rfl, rfl, rfl, rfl, rfl, rfl, rfl⟩ with ⟨q1, q2, q3⟩
        rcases hLa : ipLoop true true rc stop probe (portList start_port end_port)
          (List.range' s (e + 1 - s)) st0 with ⟨sa, fa⟩
        rcases hLb : ipLoop false true rc stop probe (portList start_port end_port)
          (List.range' s (e + 1 - s)) st0 with ⟨sb, fb⟩
        rw [hLa, hLb] at q1 q2 q3
        simp only at q1
        subst q1
        obtain ⟨e1, e2, e3, e4, e5, e6, e7⟩ := q2
        simp only at e1 e2 e3 e4 e5 e6 e7
        have q3b : sa.logs.length = sb.logs.length + sa.nClosedProbes := by
          have hq : sa.logs.length + st0.logs.length + st0.nClosedProbes =
              sb.logs.length + st0.logs.length + sa.nClosedProbes := by
            simpa using q3
          simpa [st0] using hq
        cases fa with
        | normal =>
          refine ⟨?_, ?_, ?_, ?_, ?_⟩ <;>
            simp [scan_ips, hse, hLa, hLb, pushResult_resultCalls, e2, e5, e6, e7, q3b]
        | stopped =>
          refine ⟨?_, ?_, ?_, ?_, ?_⟩ <;>
            simp [scan_ips, hse, hLa, hLb, pushResult_resultCalls, e2, e5, e6, e7, q3b]
        | raised m =>
          refine ⟨?_, ?_, ?_, ?_, ?_⟩ <;>
            (simp [scan_ips, hse, hLa, hLb, pushResult_resultCalls, e2, e5, e6, e7, q3b];
              try omega)

/-- C10: the two localized copies of the engine are behaviorally
equivalent: for every input, `scan_ips` and the Spanish `scan_ips_es`
take the same exit, call `result_callback` with identical result lists,
run the same probes and checks, and invoke `log_callback` the same number
of times — their logs differ only in message text. -/
theorem C10_localized_copies_equivalent (start_ip end_ip : Except String Nat)
    (start_port end_port : Nat) (v : Bool) (stop : Nat → Bool)
    (probe : String → Nat → ProbeRes) (lc rc : Bool) :
    (scan_ips start_ip end_ip start_port end_port v stop probe lc rc).exit =
      (scan_ips_es start_ip end_ip start_port end_port v stop probe lc rc).exit ∧
    (scan_ips start_ip end_ip start_port end_port v stop probe lc rc).resultCalls =
      (scan_ips_es start_ip end_ip start_port end_port v stop probe lc rc).resultCalls ∧
    (scan_ips start_ip end_ip start_port end_port v stop probe lc rc).open_ports =
      (scan_ips_es start_ip end_ip start_port end_port v stop probe lc rc).open_ports ∧
    (scan_ips start_ip end_ip start_port end_port v stop probe lc rc).nProbes =
      (scan_ips_es start_ip end_ip start_port end_port v stop probe lc rc).nProbes ∧
    (scan_ips start_ip end_ip start_port end_port v stop probe lc rc).nChecks =
      (scan_ips_es start_ip end_ip start_port end_port v stop probe lc rc).nChecks ∧
    (scan_ips start_ip end_ip start_port end_port v stop probe lc rc).logs.length =
      (scan_ips_es start_ip end_ip start_port end_port v stop probe lc rc).logs.length := by
  cases start_ip with
  | error m =>
    refine ⟨?_, ?_, ?_, ?_, ?_, ?_⟩ <;>
      simp [scan_ips, scan_ips_es, st0, pushLog_logs_length, pushResult_resultCalls]
  | ok s =>
    cases end_ip with
    | error m =>
      refine ⟨?_, ?_, ?_, ?_, ?_, ?_⟩ <;>
        simp [scan_ips, scan_ips_es, st0, pushLog_logs_length, pushResult_resultCalls]
    | ok e =>
      by_cases hse : s > e
      · refine ⟨?_, ?_, ?_, ?_, ?_, ?_⟩ <;>
          simp [scan_ips, scan_ips_es, hse, st0, pushLog_logs_length, pushResult_resultCalls]
      · rcases ipLoop_es_rel v lc rc stop probe (portList start_port end_port)
          (List.range' s (e + 1 - s)) st0 st0
          ⟨rfl, rfl, rfl, rfl, rfl, rfl, rfl⟩ rfl with ⟨q1, q2, q3⟩
        rcases hLa : ipLoop v lc rc stop probe (portList start_port end_port)
          (List.range' s (e + 1 - s)) st0 with ⟨sa, fa⟩
        rcases hLb : ipLoopEs v lc rc stop probe (portList start_port end_port)
          (List.range' s (e + 1 - s)) st0 with ⟨sb, fb⟩
        rw [hLa, hLb] at q1 q2 q3
        simp only at q1 q3
        subst q1
        obtain ⟨e1, e2, e3, e4, e5, e6, e7⟩ := q2
        simp only at e1 e2 e3 e4 e5 e6 e7
        cases fa with
        | normal =>
          refine ⟨?_, ?_, ?_, ?_, ?_, ?_⟩ <;>
            simp [scan_ips, scan_ips_es, hse, hLa, hLb, pushResult_resultCalls,
              e1, e2, e6, e7, q3]
        | stopped =>
          refine ⟨?_, ?_, ?_, ?_, ?_, ?_⟩ <;>
            simp [scan_ips, scan_ips_es, hse, hLa, hLb, pushResult_resultCalls,
              e1, e2, e6, e7, q3]
        | raised m =>
          refine ⟨?_, ?_, ?_, ?_, ?_, ?_⟩ <;>
            simp [scan_ips, scan_ips_es, hse, hLa, hLb, pushResult_resultCalls,
              e1, e2, e6, e7, q3, pushLog_logs_length]

end PortScanner
